import Mathlib

/-!
Shallow embedding of liblightbase's schema / document core:
`lbbase/struct.py` (class `Base`), `lbdoc/metaclass.py` (generated document
metaclasses) and the legacy `lbbase/__init__.py` `Base`.

Python dictionaries are modelled as association lists carrying their
insertion order, in-place mutation as explicit state passing, and raised
exceptions as `Except` / error results.  The scalar datatype validators are
external collaborators ("validate value, raise or return normalized value")
and are modelled as functions `Scalar → Option Scalar`.

Classes of the repository that are not under `src/` (`Content`, `Field`,
`Group`, `lbutils.validate_required`) are modelled from the spec; each such
definition says so in its doc comment.
-/

namespace LB

/-- Scalar leaf values of raw documents (the payload handed to the external
datatype validators).  Strings are rich enough for every property at issue. -/
abbrev Scalar := String

mutual
/-- Raw document values: scalars, arrays and objects, mirroring the plain
nested data handed to `Base.validate` / `Base.json2document`.  Objects are
association lists keeping Python-dict insertion order. -/
inductive RawVal : Type where
  | scalar : Scalar → RawVal
  | arr : RawList → RawVal
  | obj : RawObj → RawVal

/-- A list of raw values (a Python list). -/
inductive RawList : Type where
  | nil : RawList
  | cons : RawVal → RawList → RawList

/-- A raw object (a Python dict), as an ordered association list. -/
inductive RawObj : Type where
  | nil : RawObj
  | cons : String → RawVal → RawObj → RawObj
end

/-- Lookup in a raw object: Python `d[key]` / `key in d`. -/
def RawObj.lookup : RawObj → String → Option RawVal
  | .nil, _ => none
  | .cons k v rest, key => if k = key then some v else rest.lookup key

/-- Python `if key in d: del d[key]` (struct.py line 93). -/
def RawObj.eraseKey : RawObj → String → RawObj
  | .nil, _ => .nil
  | .cons k v rest, key =>
    if k = key then rest.eraseKey key else .cons k v (rest.eraseKey key)

/-- Python `d[key] = v`: replace in place if present, else append. -/
def RawObj.setKey : RawObj → String → RawVal → RawObj
  | .nil, key, v => .cons key v .nil
  | .cons k w rest, key, v =>
    if k = key then .cons k v rest else .cons k w (rest.setKey key v)

/-- The keys of a raw object, in order. -/
def RawObj.keys : RawObj → List String
  | .nil => []
  | .cons k _ rest => k :: rest.keys

/-- Number of entries of a raw object (Python `len(d)`). -/
def RawObj.size : RawObj → Nat
  | .nil => 0
  | .cons _ _ rest => rest.size + 1

/-- A scalar `Field` structure.  The `Field` class itself is not under
`src/`; modelled from the spec: "leaf structure.  Attributes: name, datatype
capability (validate(value) → normalized value, raises on mismatch),
required: bool, multivalued: bool, relational: bool.  No children." -/
structure Field where
  name : String
  datatype : Scalar → Option Scalar
  required : Bool
  multivalued : Bool
  is_rel : Bool

/-- Metadata of a `Group` structure.  Modelled from the spec: "composite
structure.  Attributes: metadata (name, multivalued)"; the `required` flag is
the spec's "group-level flag" governing the Groups' required-ness (§4.1). -/
structure GroupMetadata where
  name : String
  multivalued : Bool
  required : Bool

mutual
/-- A structure of the tree: `Field` (scalar leaf) or `Group` (composite
holding nested `Content`).  The `Group` class is not under `src/`; modelled
from the spec (§3). -/
inductive Struct : Type where
  | fld : Field → Struct
  | grp : GroupMetadata → Content → Struct

/-- An ordered sequence of structures.  The `Content` class is not under
`src/`; modelled from the spec: "ordered sequence of Field | Group, insertion
order is the canonical schema order". -/
inductive Content : Type where
  | nil : Content
  | cons : Struct → Content → Content
end

/-- Induction on the spine of a `Content` (the nested contents inside
Groups are untouched); the eliminator the `induction` tactic cannot derive
for the mutual family. -/
def Content.inductionOn {P : Content → Prop} (c : Content) (nil : P .nil)
    (cons : ∀ s rest, P rest → P (.cons s rest)) : P c :=
  match c with
  | .nil => nil
  | .cons s rest => cons s rest (rest.inductionOn nil cons)

/-- The name of a structure: `struct.name` for Fields,
`struct.metadata.name` for Groups (struct.py lines 124-127). -/
def Struct.sname : Struct → String
  | .fld f => f.name
  | .grp m _ => m.name

/-- Python `getattr(struct, 'required', False)` (struct.py line 128). -/
def Struct.requiredFlag : Struct → Bool
  | .fld f => f.required
  | .grp m _ => m.required

/-- Python `struct.is_field`. -/
def Struct.is_field : Struct → Bool
  | .fld _ => true
  | .grp _ _ => false

/-- First structure of the given name at this content level. -/
def Content.find? : Content → String → Option Struct
  | .nil, _ => none
  | .cons s rest, key => if s.sname = key then some s else rest.find? key

/-- Modelled from the spec: `content.__snames__`, the list of this level's
structure names. -/
def Content.snames : Content → List String
  | .nil => []
  | .cons s rest => s.sname :: rest.snames

/-- Modelled from the spec: `content.__rnames__`, the required-name set of
this level ("required Field/Group", §4.2 point 2). -/
def Content.rnames : Content → List String
  | .nil => []
  | .cons s rest =>
    if s.requiredFlag then s.sname :: rest.rnames else rest.rnames

mutual
/-- All (name, structure) pairs contributed by one structure: itself and,
for a Group, everything nested below it. -/
def Struct.selfstructs : Struct → List (String × Struct)
  | .fld f => [(f.name, .fld f)]
  | .grp m c => (m.name, .grp m c) :: c.allstructsList

/-- Modelled from the spec: `content.__allstructs__`, the dictionary
{structure name: structure} over the whole tree; as a Python dict
comprehension, a later entry of the walk overwrites an earlier one. -/
def Content.allstructsList : Content → List (String × Struct)
  | .nil => []
  | .cons s rest => s.selfstructs ++ rest.allstructsList
end

/-- Base metadata; only the name is read by the embedded core. -/
structure BaseMetadata where
  name : String

/-- The `Base` of struct.py: metadata plus content.  Its mutable scratch
dictionaries `__files__` / `__reldata__` are modelled as explicit
`ScratchState` values passed through `validate`. -/
structure Base where
  metadata : BaseMetadata
  content : Content

/-- Python `self.__allstructs__[sname]` wrapped by `Base.get_struct`
(struct.py lines 133-142); dict semantics: the last entry of the walk wins. -/
def Base.get_struct (b : Base) (sname : String) : Option Struct :=
  (b.content.allstructsList.reverse.find? (fun p => p.1 == sname)).map (·.2)

/-- Error kinds of the core, per spec §7 (not tied to Python's exception
types: e.g. `missingRequired` is struct.py's `TypeError('Required structure
... not provided')`). -/
inductive Err : Type where
  | missingRequired (names : List String)
  | unknownStructure (name : String)
  | typeMismatch (name : String)
  | fieldValidation (name : String)
  | docValidation (cause : String)
  deriving DecidableEq

/-- A pending file reference (contents irrelevant to the core). -/
abbrev FileRef := String

/-- Pending relational-column values for one document id. -/
abbrev RelMap := List (String × Scalar)

/-- Lookup in an id-keyed Python dict. -/
def lookupA {α : Type} : List (Nat × α) → Nat → Option α
  | [], _ => none
  | p :: rest, id => if p.1 = id then some p.2 else lookupA rest id

/-- Python `d[id] = v` on an id-keyed dict. -/
def setA {α : Type} (l : List (Nat × α)) (id : Nat) (v : α) : List (Nat × α) :=
  (id, v) :: l.filter (fun p => p.1 ≠ id)

/-- Python `del d[id]` on an id-keyed dict. -/
def delA {α : Type} (l : List (Nat × α)) (id : Nat) : List (Nat × α) :=
  l.filter (fun p => p.1 ≠ id)

/-- The per-validation scratch state: `Base.__files__` ({id_doc: list of
files}) and `Base.__reldata__` ({id_doc: {field name: data}}). -/
structure ScratchState where
  files : List (Nat × List FileRef)
  reldata : List (Nat × RelMap)

/-- Document metadata handed to `Base.validate`: its `id_doc` and its
attribute dictionary `__dict__` (reattached on success, struct.py 108). -/
structure DocumentMetadata where
  id_doc : Nat
  mdict : RawVal

/-- The compiled voluptuous schema as applied to a document, together with
the side effects the datatype validators may have on this id's scratch entry
(they may append file references and relational data while validating).  On
a validation failure it yields `Except.error` with the exception text `e`;
on success a freshly built validated mapping (voluptuous constructs a new
output dict when validating a mapping, so the caller's dict is not the
returned one). -/
def SchemaFun : Type :=
  RawObj → List FileRef → RelMap → Except String (RawObj × List FileRef × RelMap)

/-- Result of `Base.validate`: the final scratch state, the caller's document
mapping after the call (the code mutates it in place), and either the raised
exception or the returned 4-tuple (validated document, relational data, file
list, warnings). -/
def Base.validate (b : Base) (sfun : SchemaFun) (st : ScratchState)
    (document : RawObj) (meta : DocumentMetadata) :
    ScratchState × RawObj × Except Err (RawObj × RelMap × List FileRef × List String) :=
  let id := meta.id_doc
  -- Create docs memory area (struct.py 89-90)
  let st1 : ScratchState := ⟨setA st.files id [], setA st.reldata id []⟩
  -- Delete metadata from document (struct.py 93); mutates the caller's dict
  let doc1 := document.eraseKey "_metadata"
  -- Build schema (96) and validate the document through it (99)
  match sfun doc1 [] [] with
  | .error e =>
    -- If process goes wrong, clear the docs memory area and raise (102-105)
    (⟨delA st1.files id, delA st1.reldata id⟩, doc1, .error (.docValidation e))
  | .ok (doc2, fl, rl) =>
    -- Put document metadata back into the validated copy and return (108-113)
    (⟨setA st1.files id fl, setA st1.reldata id rl⟩, doc1,
      .ok (doc2.setKey "_metadata" meta.mdict, rl, fl, []))

mutual
/-- The compiled validator of one structure.  For a Field it is the
datatype's own validator (together with the field's multivalued flag: a
multivalued field validates "is a list and every element validates");
`Field.schema` is not under src/ and is modelled from the spec (§4.1, §6).
For a Group it is the recursive compilation of the nested content, wrapped
by the multivalued flag; `Group.schema` is modelled from the spec likewise. -/
inductive SchemaV : Type where
  | fieldv : (Scalar → Option Scalar) → Bool → SchemaV
  | groupv : Bool → SchemaObj → SchemaV

/-- A compiled mapping schema: ordered entries (key, required mark,
per-structure validator), mirroring the voluptuous `Schema(dict)` built by
`Base.schema` (struct.py 115-131). -/
inductive SchemaObj : Type where
  | nil : SchemaObj
  | cons : String → Bool → SchemaV → SchemaObj → SchemaObj
end

mutual
/-- Python `struct.schema(self, id)` (spec §4.1). -/
def Struct.schemaOf : Struct → SchemaV
  | .fld f => .fieldv f.datatype f.multivalued
  | .grp m c => .groupv m.multivalued c.compile

/-- The loop of `Base.schema` (struct.py 122-130): each structure
contributes its key, wrapped in `voluptuous.Required` exactly when
`getattr(struct, 'required', False)` is true, mapped to the structure's own
compiled validator. -/
def Content.compile : Content → SchemaObj
  | .nil => .nil
  | .cons s rest => .cons s.sname s.requiredFlag s.schemaOf rest.compile
end

/-- Python `Base.schema` (struct.py 115-131): compile the base's content. -/
def Base.schema (b : Base) : SchemaObj :=
  b.content.compile

/-- Entry of a compiled schema for a key. -/
def SchemaObj.find? : SchemaObj → String → Option (Bool × SchemaV)
  | .nil, _ => none
  | .cons k r sv rest, key => if k = key then some (r, sv) else rest.find? key

/-- The keys a compiled schema marks `voluptuous.Required`. -/
def SchemaObj.requiredKeys : SchemaObj → List String
  | .nil => []
  | .cons k r _ rest => if r then k :: rest.requiredKeys else rest.requiredKeys

/-- Voluptuous's required-key pass on a mapping: every key the schema marks
required must be present in the data. -/
def checkRequired (so : SchemaObj) (o : RawObj) : Bool :=
  so.requiredKeys.all (fun k => (o.lookup k).isSome)

mutual
/-- Voluptuous's mapping validation, modelled from its documented behavior
and spec §4.1: iterate the data's items; a key without a schema entry is an
"extra key" failure; otherwise the entry's validator is applied to the
value and the (possibly normalized) result is collected into a fresh output
mapping. -/
def checkItems (so : SchemaObj) : RawObj → Option RawObj
  | .nil => some .nil
  | .cons k v rest =>
    match so.find? k with
    | none => none
    | some (_, sv) =>
      match checkVal sv v, checkItems so rest with
      | some w, some rest2 => some (.cons k w rest2)
      | _, _ => none

/-- Apply one structure's compiled validator to a value (spec §4.1): a
multivalued Field requires a list of scalars, each validated independently;
a single-valued Field validates the scalar directly; a multivalued Group
requires a list, every element validating against the nested schema; a
single-valued Group validates the nested mapping. -/
def checkVal : SchemaV → RawVal → Option RawVal
  | .fieldv dt mv, v =>
    if mv then
      match v with
      | .arr l => (checkScalarList dt l).map .arr
      | _ => none
    else
      match v with
      | .scalar a => (dt a).map .scalar
      | _ => none
  | .groupv mv so, v =>
    if mv then
      match v with
      | .arr l => (checkObjList so l).map .arr
      | _ => none
    else
      match v with
      | .obj o => if checkRequired so o then (checkItems so o).map .obj else none
      | _ => none

/-- Elementwise scalar validation of a multivalued Field's list. -/
def checkScalarList (dt : Scalar → Option Scalar) : RawList → Option RawList
  | .nil => some .nil
  | .cons v rest =>
    match v with
    | .scalar a =>
      match dt a, checkScalarList dt rest with
      | some b2, some rest2 => some (.cons (.scalar b2) rest2)
      | _, _ => none
    | _ => none

/-- Elementwise validation of a multivalued Group's list of mappings. -/
def checkObjList (so : SchemaObj) : RawList → Option RawList
  | .nil => some .nil
  | .cons v rest =>
    match v with
    | .obj o =>
      if checkRequired so o then
        match checkItems so o, checkObjList so rest with
        | some o2, some rest2 => some (.cons (.obj o2) rest2)
        | _, _ => none
      else none
    | _ => none
end

/-- Applying a compiled mapping schema to a raw document: the required-key
pass plus the per-item pass. -/
def checkObj (so : SchemaObj) (o : RawObj) : Option RawObj :=
  if checkRequired so o then checkItems so o else none

/-- The concrete compiled-schema application of a base, lifted to a
`SchemaFun`.  The embedded datatype validators are pure, so the scratch
entry passes through unchanged; the exception text is the voluptuous
`Invalid` message wrapped by struct.py 104-105. -/
def Base.schemaFun (b : Base) : SchemaFun :=
  fun doc fl rl =>
    match checkObj b.content.compile doc with
    | some doc2 => .ok (doc2, fl, rl)
    | none => .error "document data is not according to base definition"

/-- Membership of a structure at the top level of a content. -/
def Content.memTop : Content → Struct → Prop
  | .nil, _ => False
  | .cons s rest, t => t = s ∨ rest.memTop t

/-- `ContentReach c0 c` holds when `c` is `c0` itself or the nested content
of some Group reachable from `c0`: the levels the recursive schema
compilation visits. -/
inductive ContentReach : Content → Content → Prop where
  | refl (c : Content) : ContentReach c c
  | group {c0 c c2 : Content} {m : GroupMetadata} :
      ContentReach c0 c → c.memTop (.grp m c2) → ContentReach c0 c2

mutual
/-- Name uniqueness per nesting level, at every level of the tree (the
spec's Content invariant: "structure names unique within the same Content
level"). -/
def Content.levelsNodup : Content → Bool
  | .nil => true
  | .cons s rest =>
    !(decide (s.sname ∈ rest.snames)) && s.levelsNodupS && rest.levelsNodup

/-- Name uniqueness inside one structure's nested levels. -/
def Struct.levelsNodupS : Struct → Bool
  | .fld _ => true
  | .grp _ c => c.levelsNodup
end

/-- A concrete required field, used by witnesses: `Field("title",
required=true)` with the identity datatype validator. -/
def titleField : Field :=
  ⟨"title", fun s => some s, true, false, false⟩

/-- A concrete optional field `Field("name", required=true)` nested in the
sample group. -/
def nameField : Field :=
  ⟨"name", fun s => some s, true, false, false⟩

/-- The spec §8 sample content: `[Field("title", required=true),
Group("author", required, multivalued=false,
content=[Field("name", required=true)])]`. -/
def sampleContent : Content :=
  .cons (.fld titleField)
    (.cons (.grp ⟨"author", false, true⟩ (.cons (.fld nameField) .nil)) .nil)

/-- The sample base built over `sampleContent`. -/
def sampleBase : Base :=
  ⟨⟨"sample"⟩, sampleContent⟩

mutual
/-- The value stored in one slot of a generated document instance: a
`FieldMetaClass` wrapper (holding the normalized `__value__`), a nested
instance for a single-valued Group, or a list of instances for a
multivalued Group — `wrapped = true` when the stored list object is a
`MultiGroupMetaClass` (metaclass.py 87-88), `false` when it is the plain
Python list stored by struct.py's setter (struct.py 326). -/
inductive DocVal : Type where
  | fieldv : RawVal → DocVal
  | ginst : DocInst → DocVal
  | glist : Bool → InstList → DocVal

/-- A list of document instances. -/
inductive InstList : Type where
  | nil : InstList
  | cons : DocInst → InstList → InstList

/-- A generated-type document instance.  The generated classes are cached
one per structure name (`Base.__metaclasses__`), so the class identity that
`isinstance` tests is modelled by the generating structure's name. -/
inductive DocInst : Type where
  | mk : String → Slots → DocInst

/-- The slot dictionary of an instance (the `_name` attributes). -/
inductive Slots : Type where
  | nil : Slots
  | cons : String → DocVal → Slots → Slots
end

/-- The class name of an instance. -/
def DocInst.cls : DocInst → String
  | .mk c _ => c

/-- The slots of an instance. -/
def DocInst.slots : DocInst → Slots
  | .mk _ s => s

/-- Slot lookup (`getattr(self, '_' + name)`). -/
def Slots.lookup : Slots → String → Option DocVal
  | .nil, _ => none
  | .cons k v rest, key => if k = key then some v else rest.lookup key

/-- Slot update (`setattr(self, '_' + name, value)`). -/
def Slots.set : Slots → String → DocVal → Slots
  | .nil, key, v => .cons key v .nil
  | .cons k w rest, key, v =>
    if k = key then .cons k v rest else .cons k w (rest.set key v)

/-- Python `list.append` on an instance list. -/
def InstList.push : InstList → DocInst → InstList
  | .nil, i => .cons i .nil
  | .cons x rest, i => .cons x (rest.push i)

/-- Python `len` of an instance list. -/
def InstList.length : InstList → Nat
  | .nil => 0
  | .cons _ rest => rest.length + 1

/-- Python `l[idx] = x` on an instance list (out-of-range indices raise
IndexError in Python after the type assert; they leave the list unchanged
here and are not used by any theorem). -/
def InstList.setAt : InstList → Nat → DocInst → InstList
  | .nil, _, _ => .nil
  | .cons _ rest, 0, i => .cons i rest
  | .cons x rest, n + 1, i => .cons x (rest.setAt n i)

mutual
/-- A Python value assigned through a generated accessor or passed as a
keyword argument: a scalar, a plain dict, a Python list, or a
generated-type instance. -/
inductive SetVal : Type where
  | scal : Scalar → SetVal
  | dict : RawObj → SetVal
  | list : SetList → SetVal
  | inst : DocInst → SetVal

/-- A Python list of assignable values (possibly heterogeneous). -/
inductive SetList : Type where
  | nil : SetList
  | cons : SetVal → SetList → SetList
end

mutual
/-- Embed a raw value as the Python value it is: raw arrays are Python
lists, raw objects plain dicts. -/
def SetVal.ofRaw : RawVal → SetVal
  | .scalar a => .scal a
  | .arr l => .list (SetList.ofRawList l)
  | .obj o => .dict o

/-- Elementwise embedding of a raw array. -/
def SetList.ofRawList : RawList → SetList
  | .nil => .nil
  | .cons v rest => .cons (SetVal.ofRaw v) (SetList.ofRawList rest)
end

/-- Elementwise datatype validation of a multivalued field's list:
`value = [validator(element) for element in value]` (metaclass.py 171); the
scalar validators reject anything that is not an accepted scalar. -/
def fieldElems (f : Field) : SetList → Except Err RawList
  | .nil => .ok .nil
  | .cons e rest =>
    match e with
    | .scal a =>
      match f.datatype a with
      | some b2 => (fieldElems f rest).map (.cons (.scalar b2))
      | none => .error (.fieldValidation f.name)
    | _ => .error (.fieldValidation f.name)

/-- `FieldMetaClass.__setattr__` (metaclass.py 165-174): every assignment to
the wrapped value routes the incoming value through the field's datatype
validator; a multivalued field asserts the value is a list and validates
each element independently, storing the normalized list; a single-valued
field validates the scalar directly.  The result is the `__value__` actually
stored, or the raised error. -/
def fieldSetattr (f : Field) (value : SetVal) : Except Err RawVal :=
  if f.multivalued then
    match value with
    | .list es => (fieldElems f es).map .arr
    | _ => .error (.typeMismatch f.name)
  else
    match value with
    | .scal a =>
      match f.datatype a with
      | some b2 => .ok (.scalar b2)
      | none => .error (.fieldValidation f.name)
    | _ => .error (.fieldValidation f.name)

/-- `FieldMetaClass.__init__` (metaclass.py 162-163): `self.__value__ =
value` itself triggers `__setattr__`, so construction validates exactly like
assignment. -/
def fieldInit (f : Field) (value : SetVal) : Except Err RawVal :=
  fieldSetattr f value

/-- `MultiGroupMetaClass.append` (metaclass.py 139-145): assert the element
is an instance of the group's generated metaclass, then append; on
assertion failure the underlying list is untouched.  Returns the list after
the call together with the raised error, if any. -/
def multiAppend (gname : String) (l : InstList) (e : SetVal) : InstList × Option Err :=
  match e with
  | .inst i =>
    if i.cls = gname then (l.push i, none) else (l, some (.typeMismatch gname))
  | _ => (l, some (.typeMismatch gname))

/-- `MultiGroupMetaClass.__setitem__` (metaclass.py 130-137): assert the
element's class, then delegate to `list.__setitem__`. -/
def multiSetitem (gname : String) (l : InstList) (idx : Nat) (e : SetVal) :
    InstList × Option Err :=
  match e with
  | .inst i =>
    if i.cls = gname then (l.setAt idx i, none) else (l, some (.typeMismatch gname))
  | _ => (l, some (.typeMismatch gname))

/-- Append through the object a multivalued Group slot actually stores: the
`MultiGroupMetaClass` wrapper re-checks the element's class; the plain
`list` stored by struct.py's setter accepts any instance. -/
def storedAppend (gname : String) : DocVal → DocInst → DocVal × Option Err
  | .glist true l, i =>
    match multiAppend gname l (.inst i) with
    | (l2, e) => (.glist true l2, e)
  | .glist false l, i => (.glist false (l.push i), none)
  | dv, _ => (dv, some (.typeMismatch gname))

/-- Python `all(isinstance(element, struct_metaclass) for element in value)`
(struct.py 317-318, metaclass.py 84-85). -/
def allInst (gname : String) : SetList → Bool
  | .nil => true
  | .cons e rest =>
    (match e with
     | .inst i => i.cls == gname
     | _ => false) && allInst gname rest

/-- The instances of a checked list (guarded by `allInst` at use sites). -/
def instsOf : SetList → InstList
  | .nil => .nil
  | .cons (.inst i) rest => .cons i (instsOf rest)
  | .cons _ rest => instsOf rest

/-- The generated property setter, shared in shape by `Base._make_meta_prop`
(struct.py 301-326, `wrapMulti = false`: the checked list is stored as the
plain list) and `generate_property` (metaclass.py 73-93, `wrapMulti = true`:
the checked list is wrapped in `MultiGroupMetaClass`).  Fields wrap the
value in the field's `FieldMetaClass`; a single-valued Group asserts the
value is an instance of the group's metaclass; a multivalued Group asserts a
list of such instances. -/
def setterVal (wrapMulti : Bool) (s : Struct) (value : SetVal) : Except Err DocVal :=
  match s with
  | .fld f => (fieldInit f value).map .fieldv
  | .grp m _ =>
    if m.multivalued then
      match value with
      | .list es =>
        if allInst m.name es then .ok (.glist wrapMulti (instsOf es))
        else .error (.typeMismatch m.name)
      | _ => .error (.typeMismatch m.name)
    else
      match value with
      | .inst i =>
        if i.cls = m.name then .ok (.ginst i) else .error (.typeMismatch m.name)
      | _ => .error (.typeMismatch m.name)

/-- The required-name check of the generated constructors: struct.py 254-258
computes the set difference `rnames - kwargs` and raises when it is
non-empty; `lbutils.validate_required` (not under src/) is modelled from the
spec with the same meaning ("Fails with a MissingRequiredStructure error if
any name in the required-name set is absent from the input"). -/
def missingNames (c : Content) (kwargs : List (String × SetVal)) : List String :=
  c.rnames.filter (fun r => !(decide (r ∈ kwargs.map (·.1))))

/-- The kwargs loop of the generated constructors (struct.py 260-266,
metaclass.py 42-43): per keyword argument, in order, a name without a
structure at this level raises (AttributeError — `UnknownStructure`), and
otherwise the generated setter validates and assigns the slot.  Returns the
slots of the instance under construction together with the first error;
everything processed before the failing argument stays assigned. -/
def constructLoop (wrapMulti : Bool) (c : Content) (slots : Slots) :
    List (String × SetVal) → Slots × Option Err
  | [] => (slots, none)
  | (k, v) :: rest =>
    match c.find? k with
    | none => (slots, some (.unknownStructure k))
    | some s =>
      match setterVal wrapMulti s v with
      | .error e => (slots, some e)
      | .ok dv => constructLoop wrapMulti c (slots.set k dv) rest

/-- The generated constructor (struct.py `BaseMetaClass.__init__` 251-266
with `wrapMulti = false`, metaclass.py `MetaClass.__init__` 37-43 with
`wrapMulti = true`): the required-name check runs first, then the kwargs
loop assigns each argument through the generated accessors. -/
def construct (wrapMulti : Bool) (clsname : String) (c : Content)
    (kwargs : List (String × SetVal)) : Except Err DocInst :=
  if missingNames c kwargs = [] then
    match constructLoop wrapMulti c .nil kwargs with
    | (slots, none) => .ok (.mk clsname slots)
    | (_, some e) => .error e
  else .error (.missingRequired (missingNames c kwargs))

/-- Spine induction for `RawObj`. -/
def RawObj.inductionOn {P : RawObj → Prop} (o : RawObj) (nil : P .nil)
    (cons : ∀ k v rest, P rest → P (.cons k v rest)) : P o :=
  match o with
  | .nil => nil
  | .cons k v rest => cons k v rest (rest.inductionOn nil cons)

/-- Spine induction for `RawList`. -/
def RawList.inductionOn {P : RawList → Prop} (l : RawList) (nil : P .nil)
    (cons : ∀ v rest, P rest → P (.cons v rest)) : P l :=
  match l with
  | .nil => nil
  | .cons v rest => cons v rest (rest.inductionOn nil cons)

/-- Spine induction for `SetList`. -/
def SetList.inductionOn {P : SetList → Prop} (l : SetList) (nil : P .nil)
    (cons : ∀ e rest, P rest → P (.cons e rest)) : P l :=
  match l with
  | .nil => nil
  | .cons e rest => cons e rest (rest.inductionOn nil cons)

/-- Spine induction for `InstList`. -/
def InstList.inductionOn {P : InstList → Prop} (l : InstList) (nil : P .nil)
    (cons : ∀ i rest, P rest → P (.cons i rest)) : P l :=
  match l with
  | .nil => nil
  | .cons i rest => cons i rest (rest.inductionOn nil cons)

/-- Spine induction for `Slots`. -/
def Slots.inductionOn {P : Slots → Prop} (sl : Slots) (nil : P .nil)
    (cons : ∀ k v rest, P rest → P (.cons k v rest)) : P sl :=
  match sl with
  | .nil => nil
  | .cons k v rest => cons k v rest (rest.inductionOn nil cons)

/-- Elementwise description of a successfully validated multivalued field
value: each incoming element is a scalar the datatype validator accepts,
normalized to the validator's output. -/
inductive ElemsNorm (f : Field) : SetList → RawList → Prop where
  | nil : ElemsNorm f .nil .nil
  | cons {a b2 : Scalar} {rest : SetList} {rest2 : RawList} :
      f.datatype a = some b2 → ElemsNorm f rest rest2 →
      ElemsNorm f (.cons (.scal a) rest) (.cons (.scalar b2) rest2)

/-- Python `self.get_metaclass(name)` (struct.py 144-152) resolved to the
generating structure: `Base.__metaclasses__` holds one generated class per
structure name, built from the global structure of that name; the content a
Group's generated constructor iterates is the group's own content
(`generate_metaclass`, metaclass.py 18-19, via `Group.metaclass`, which is
not under src/ and is modelled from the spec's Document Type Generator). -/
def Base.groupContent (b : Base) (gname : String) : Except Err Content :=
  match b.get_struct gname with
  | some (.grp _ c) => .ok c
  | _ => .error (.unknownStructure gname)

mutual
/-- The kwargs-building loop of `Base.json2document` (struct.py 345-370):
for each member of the raw object, resolve the structure globally
(`self.get_struct(member)`); a Field's raw value goes into the kwargs
verbatim (as the Python value it is); a Group's value is recursively
converted through the group's generated metaclass (one instance, or the
mapped list for a multivalued group).  A value of the wrong container shape
for a Group makes Python iterate garbage; it is modelled as a
TypeMismatch. -/
def j2dKwargs (b : Base) : RawObj → Except Err (List (String × SetVal))
  | .nil => .ok []
  | .cons k v rest =>
    match b.get_struct k with
    | none => .error (.unknownStructure k)
    | some (.fld _) => (j2dKwargs b rest).map (fun kw => (k, SetVal.ofRaw v) :: kw)
    | some (.grp m _) =>
      if m.multivalued then
        match v with
        | .arr l =>
          match b.groupContent m.name with
          | .error e => .error e
          | .ok c2 =>
            match j2dList b m.name c2 l, j2dKwargs b rest with
            | .ok insts, .ok kw => .ok ((k, .list insts) :: kw)
            | .error e, _ => .error e
            | _, .error e => .error e
        | _ => .error (.typeMismatch m.name)
      else
        match v with
        | .obj o =>
          match b.groupContent m.name with
          | .error e => .error e
          | .ok c2 =>
            match (j2dKwargs b o).bind (construct true m.name c2), j2dKwargs b rest with
            | .ok i, .ok kw => .ok ((k, .inst i) :: kw)
            | .error e, _ => .error e
            | _, .error e => .error e
        | _ => .error (.typeMismatch m.name)

/-- The multivalued-group element loop of `Base.json2document`
(struct.py 356-363): each element is converted through the group's
generated metaclass and appended. -/
def j2dList (b : Base) (gname : String) (c2 : Content) : RawList → Except Err SetList
  | .nil => .ok .nil
  | .cons v rest =>
    match v with
    | .obj o =>
      match (j2dKwargs b o).bind (construct true gname c2), j2dList b gname c2 rest with
      | .ok i, .ok insts => .ok (.cons (.inst i) insts)
      | .error e, _ => .error e
      | _, .error e => .error e
    | _ => .error (.typeMismatch gname)
end

/-- `Base.json2document` at the root (struct.py 335-372, `metaclass=None`):
build the kwargs from the raw object and call the top-level `BaseMetaClass`
constructor (`Base.metaclass()`, struct.py 236-275, whose accessors are the
`_make_meta_prop` ones: `wrapMulti = false`). -/
def Base.json2document (b : Base) (jsonobj : RawObj) : Except Err DocInst :=
  (j2dKwargs b jsonobj).bind (construct false b.metadata.name b.content)

/-- What reading one slot through the generated getter contributes to
`document2dict`: skipped (the code's caught AttributeError / absent slot),
a raised error, or a raw value for the output dictionary. -/
inductive Outcome : Type where
  | skip : Outcome
  | err : Err → Outcome
  | val : RawVal → Outcome

/-- First outcome recorded for a key. -/
def Outcome.lookupIn (outs : List (String × Outcome)) (k : String) : Option Outcome :=
  (outs.find? (fun p => p.1 == k)).map (·.2)

/-- The `for sname in snames` loop of `Base.document2dict` (struct.py
385-405): absent slots and caught AttributeErrors are skipped, the first
raised error propagates, and each read value lands under its name in the
output dictionary, in `snames` order. -/
def assembleObj : List String → List (String × Outcome) → Except Err RawObj
  | [], _ => .ok .nil
  | k :: rest, outs =>
    match Outcome.lookupIn outs k with
    | none => assembleObj rest outs
    | some .skip => assembleObj rest outs
    | some (.err e) => .error e
    | some (.val v) => (assembleObj rest outs).map (.cons k v)

mutual
/-- Outcomes of all slots of an instance (computed eagerly; `assembleObj`
only consumes the ones `document2dict` actually reads, in order, so this is
result-equivalent to the code's lazy reads). -/
def slotOutcomes (b : Base) : Slots → List (String × Outcome)
  | .nil => []
  | .cons k dv rest => (k, slotOutcome b k dv) :: slotOutcomes b rest

/-- Reading one slot in `document2dict` (struct.py 386-405): the generated
getter unwraps a Field's `__value__` (a non-Field value stored under a
Field structure lacks `__value__`, the AttributeError is caught: skip);
Groups recurse through their content, multivalued ones mapping over the
stored list; `self.get_struct(sname)` failing raises its KeyError. -/
def slotOutcome (b : Base) (k : String) : DocVal → Outcome
  | .fieldv v =>
    match b.get_struct k with
    | none => .err (.unknownStructure k)
    | some (.fld _) => .val v
    | some (.grp m _) => .err (.typeMismatch m.name)
  | .ginst i =>
    match b.get_struct k with
    | none => .err (.unknownStructure k)
    | some (.fld _) => .skip
    | some (.grp m c2) =>
      if m.multivalued then .err (.typeMismatch m.name)
      else
        match doc2dictInst b c2 i with
        | .ok o => .val (.obj o)
        | .error e => .err e
  | .glist _ l =>
    match b.get_struct k with
    | none => .err (.unknownStructure k)
    | some (.fld _) => .skip
    | some (.grp m c2) =>
      if m.multivalued then
        match doc2dictList b c2 l with
        | .ok vs => .val (.arr vs)
        | .error e => .err e
      else .err (.typeMismatch m.name)

/-- The multivalued-group element loop of `document2dict` (struct.py
395-400). -/
def doc2dictList (b : Base) (c2 : Content) : InstList → Except Err RawList
  | .nil => .ok .nil
  | .cons i rest =>
    match doc2dictInst b c2 i, doc2dictList b c2 rest with
    | .ok o, .ok vs => .ok (.cons (.obj o) vs)
    | .error e, _ => .error e
    | _, .error e => .error e

/-- `document2dict` of one instance against one content level. -/
def doc2dictInst (b : Base) (c : Content) : DocInst → Except Err RawObj
  | .mk _ slots => assembleObj c.snames (slotOutcomes b slots)
end

/-- `Base.document2dict` (struct.py 374-407): `struct = none` is the root
(snames from the base's content), a Group argument uses the group's content;
a Field has no `.content` (the code would raise AttributeError). -/
def Base.document2dict (b : Base) (document : DocInst) : Option Struct → Except Err RawObj
  | none => doc2dictInst b b.content document
  | some (.grp _ c2) => doc2dictInst b c2 document
  | some (.fld f) => .error (.typeMismatch f.name)

mutual
/-- Python `==` on raw values (documents with unique keys): structural on
scalars and arrays; on objects, insertion-order-insensitive dictionary
equality: every left entry matches the right object's entry of the same key
and both have the same number of entries. -/
def pyEq : RawVal → RawVal → Bool
  | .scalar a, w =>
    (match w with
     | .scalar c => a == c
     | _ => false)
  | .arr xs, w =>
    (match w with
     | .arr ys => pyEqList xs ys
     | _ => false)
  | .obj xs, w =>
    (match w with
     | .obj ys => pyEqObjSub xs ys && (xs.size == ys.size)
     | _ => false)

/-- Pointwise Python `==` on lists. -/
def pyEqList : RawList → RawList → Bool
  | .nil, ys =>
    (match ys with
     | .nil => true
     | _ => false)
  | .cons x xs, ys =>
    (match ys with
     | .cons y ys2 => pyEq x y && pyEqList xs ys2
     | _ => false)

/-- Every left entry equals (Python `==`) the right object's entry under the
same key. -/
def pyEqObjSub : RawObj → RawObj → Bool
  | .nil, _ => true
  | .cons k v rest, ys =>
    (match ys.lookup k with
     | some w => pyEq v w
     | none => false) && pyEqObjSub rest ys
end

mutual
/-- Unique keys at every object of a raw value (raw documents are Python
dicts, which cannot hold a key twice). -/
def RawVal.wfKeys : RawVal → Bool
  | .scalar _ => true
  | .arr l => l.wfKeysL
  | .obj o => o.wfKeysO

/-- `wfKeys` over a raw list. -/
def RawList.wfKeysL : RawList → Bool
  | .nil => true
  | .cons v rest => v.wfKeys && rest.wfKeysL

/-- `wfKeys` over a raw object: distinct keys, recursively. -/
def RawObj.wfKeysO : RawObj → Bool
  | .nil => true
  | .cons k v rest => (rest.lookup k).isNone && v.wfKeys && rest.wfKeysO
end

mutual
/-- Global name resolution agrees with the structure tree: every structure
of this content resolves to itself through `Base.get_struct` (the code keys
`__allstructs__` and `__metaclasses__` by bare name, so this is the
precondition for the converters to see the structures they were generated
from). -/
def Base.consistentC (b : Base) : Content → Prop
  | .nil => True
  | .cons s rest => b.get_struct s.sname = some s ∧ b.consistentS s ∧ b.consistentC rest

/-- `consistentC` below one structure. -/
def Base.consistentS (b : Base) : Struct → Prop
  | .fld _ => True
  | .grp _ c => b.consistentC c

/-- No datatype validator of this tree normalizes: each returns accepted
values unchanged. -/
def Content.noNormC : Content → Prop
  | .nil => True
  | .cons s rest => s.noNormS ∧ rest.noNormC

/-- `noNormC` below one structure. -/
def Struct.noNormS : Struct → Prop
  | .fld f => ∀ a b2, f.datatype a = some b2 → b2 = a
  | .grp _ c => c.noNormC
end

/-- A Python list holding exactly the given instances. -/
def SetList.ofInsts : InstList → SetList
  | .nil => .nil
  | .cons i rest => .cons (.inst i) (SetList.ofInsts rest)

/-- The conversion facts `json2document` establishes for the entries of one
raw object against one content level: the kwargs it builds carry the
object's keys in order, and running any generated constructor loop over
them succeeds, assigning exactly the entries' slots, each of which
`document2dict`'s getter turns back into a raw value `==`-equal to the
original entry. -/
def EntriesOut (b : Base) (c : Content) (o : RawObj) : Prop :=
  ∃ kw : List (String × SetVal),
    j2dKwargs b o = .ok kw ∧
    kw.map (·.1) = o.keys ∧
    ∀ (w : Bool) (slots0 : Slots), ∃ slots1,
      constructLoop w c slots0 kw = (slots1, none) ∧
      (∀ key, o.lookup key = none → slots1.lookup key = slots0.lookup key) ∧
      (∀ key v, o.lookup key = some v →
        ∃ dv, slots1.lookup key = some dv ∧
          ∃ rw2, slotOutcome b key dv = .val rw2 ∧ pyEq rw2 v = true)

/-- The object-level round-trip facts for one raw object: converting it
through the generated constructor succeeds, and `document2dict` on the
resulting instance yields a raw object `==`-equal to the original. -/
def ObjOut (b : Base) (c : Content) (cls : String) (w : Bool) (o : RawObj) : Prop :=
  ∃ inst e, (j2dKwargs b o).bind (construct w cls c) = .ok inst ∧
    inst.cls = cls ∧ doc2dictInst b c inst = .ok e ∧ pyEq (.obj e) (.obj o) = true

/-- The element-level round-trip facts for a multivalued group's raw list:
every element converts to an instance of the group's class, and mapping
`document2dict` back over the instances reproduces `==`-equal elements. -/
def ListOut (b : Base) (c2 : Content) (gname : String) (l : RawList) : Prop :=
  ∃ il vs, j2dList b gname c2 l = .ok (SetList.ofInsts il) ∧
    allInst gname (SetList.ofInsts il) = true ∧
    doc2dictList b c2 il = .ok vs ∧ pyEqList vs l = true

/-- A base whose single field's datatype validator normalizes every input to
`"A"` (a legitimate "return normalized value" capability). -/
def normBase : Base :=
  ⟨⟨"norm"⟩, .cons (.fld ⟨"f", fun _ => some "A", false, false, false⟩) .nil⟩

/-- A base with the structure name `x` repeated across two nesting branches
(the spec's Content invariant allows this): Group `a` holds a Field `x`,
Group `b` holds a Group `x`.  The name-keyed `__allstructs__` dictionary
keeps the later walk entry, so `get_struct "x"` resolves to Group `b`'s
nested Group even inside Group `a`. -/
def shadowBase : Base :=
  ⟨⟨"shadow"⟩,
    .cons (.grp ⟨"a", false, false⟩
      (.cons (.fld ⟨"x", fun s => some s, false, false, false⟩) .nil))
    (.cons (.grp ⟨"b", false, false⟩
      (.cons (.grp ⟨"x", false, false⟩
        (.cons (.fld ⟨"y", fun s => some s, false, false, false⟩) .nil)) .nil))
    .nil)⟩

theorem lookupA_setA {α : Type} (l : List (Nat × α)) (id : Nat) (v : α) :
    lookupA (setA l id v) id = some v := by
  simp [setA, lookupA]

theorem lookupA_filter_ne {α : Type} (l : List (Nat × α)) (id : Nat) :
    lookupA (l.filter (fun p => p.1 ≠ id)) id = none := by
  induction l with
  | nil => rfl
  | cons p rest ih =>
    by_cases h : p.1 = id
    · simpa [List.filter_cons, h] using ih
    · simpa [List.filter_cons, h, lookupA] using ih

theorem lookupA_delA {α : Type} (l : List (Nat × α)) (id : Nat) :
    lookupA (delA l id) id = none :=
  lookupA_filter_ne l id

/-- C1: if applying the compiled schema to the raw document fails, then
`Base.validate` deletes the scratch-state entries for that document id from
both `__files__` and `__reldata__` and raises the validation error carrying
the underlying cause; after the failure no scratch state remains under that
document id. -/
theorem validate_failure_rolls_back_scratch (b : Base) (sfun : SchemaFun)
    (st : ScratchState) (document : RawObj) (meta : DocumentMetadata) (e : String)
    (h : sfun (document.eraseKey "_metadata") [] [] = .error e) :
    lookupA (b.validate sfun st document meta).1.files meta.id_doc = none ∧
    lookupA (b.validate sfun st document meta).1.reldata meta.id_doc = none ∧
    (b.validate sfun st document meta).2.2 = .error (.docValidation e) := by
  have hv : b.validate sfun st document meta =
      (⟨delA (setA st.files meta.id_doc []) meta.id_doc,
        delA (setA st.reldata meta.id_doc []) meta.id_doc⟩,
       document.eraseKey "_metadata", .error (.docValidation e)) := by
    simp only [Base.validate, h]
  rw [hv]
  exact ⟨lookupA_delA _ _, lookupA_delA _ _, rfl⟩

/-- Witness for C1 at a concrete input: a base, a failing schema and a
document; the scratch entries are gone and the wrapped error is raised. -/
theorem validate_failure_rolls_back_scratch_witness :
    (fun (_ : RawObj) (_ : List FileRef) (_ : RelMap) =>
        (.error "boom" : Except String (RawObj × List FileRef × RelMap)))
        ((RawObj.cons "x" (RawVal.scalar "1") .nil).eraseKey "_metadata") [] []
      = .error "boom" ∧
    (lookupA ((Base.mk ⟨"b"⟩ .nil).validate
        (fun _ _ _ => .error "boom")
        ⟨[(7, ["old"])], []⟩ (RawObj.cons "x" (RawVal.scalar "1") .nil)
        ⟨7, RawVal.obj .nil⟩).1.files 7 = none ∧
      lookupA ((Base.mk ⟨"b"⟩ .nil).validate
        (fun _ _ _ => .error "boom")
        ⟨[(7, ["old"])], []⟩ (RawObj.cons "x" (RawVal.scalar "1") .nil)
        ⟨7, RawVal.obj .nil⟩).1.reldata 7 = none ∧
      ((Base.mk ⟨"b"⟩ .nil).validate
        (fun _ _ _ => .error "boom")
        ⟨[(7, ["old"])], []⟩ (RawObj.cons "x" (RawVal.scalar "1") .nil)
        ⟨7, RawVal.obj .nil⟩).2.2 = .error (.docValidation "boom")) :=
  ⟨rfl, validate_failure_rolls_back_scratch _ _ _ _ _ _ rfl⟩

/-- C5: when schema validation succeeds, `Base.validate` returns the 4-tuple
(validated document with the metadata dictionary reattached under
`'_metadata'`, the relational map stored for that id, the file list stored
for that id, empty warnings). -/
theorem validate_success_returns_tuple (b : Base) (sfun : SchemaFun)
    (st : ScratchState) (document : RawObj) (meta : DocumentMetadata)
    (doc2 : RawObj) (fl : List FileRef) (rl : RelMap)
    (h : sfun (document.eraseKey "_metadata") [] [] = .ok (doc2, fl, rl)) :
    (b.validate sfun st document meta).2.2 =
      .ok (doc2.setKey "_metadata" meta.mdict, rl, fl, []) ∧
    lookupA (b.validate sfun st document meta).1.reldata meta.id_doc = some rl ∧
    lookupA (b.validate sfun st document meta).1.files meta.id_doc = some fl := by
  have hv : b.validate sfun st document meta =
      (⟨setA (setA st.files meta.id_doc []) meta.id_doc fl,
        setA (setA st.reldata meta.id_doc []) meta.id_doc rl⟩,
       document.eraseKey "_metadata",
       .ok (doc2.setKey "_metadata" meta.mdict, rl, fl, [])) := by
    simp only [Base.validate, h]
  rw [hv]
  exact ⟨rfl, lookupA_setA _ _ _, lookupA_setA _ _ _⟩

/-- Witness for C5: a concrete successful validation returns exactly the
validated document with `_metadata` reattached, the stored relational map,
the stored file list and `[]`. -/
theorem validate_success_returns_tuple_witness :
    (fun (d : RawObj) (_ : List FileRef) (_ : RelMap) =>
        (.ok (d, ["f1"], [("r", "v")]) : Except String (RawObj × List FileRef × RelMap)))
        ((RawObj.cons "x" (RawVal.scalar "1") .nil).eraseKey "_metadata") [] []
      = .ok (RawObj.cons "x" (RawVal.scalar "1") .nil, ["f1"], [("r", "v")]) ∧
    (((Base.mk ⟨"b"⟩ .nil).validate
        (fun d _ _ => .ok (d, ["f1"], [("r", "v")]))
        ⟨[], []⟩ (RawObj.cons "x" (RawVal.scalar "1") .nil)
        ⟨3, RawVal.obj .nil⟩).2.2 =
      .ok ((RawObj.cons "x" (RawVal.scalar "1") .nil).setKey "_metadata" (RawVal.obj .nil),
        [("r", "v")], ["f1"], []) ∧
      lookupA ((Base.mk ⟨"b"⟩ .nil).validate
        (fun d _ _ => .ok (d, ["f1"], [("r", "v")]))
        ⟨[], []⟩ (RawObj.cons "x" (RawVal.scalar "1") .nil)
        ⟨3, RawVal.obj .nil⟩).1.reldata 3 = some [("r", "v")] ∧
      lookupA ((Base.mk ⟨"b"⟩ .nil).validate
        (fun d _ _ => .ok (d, ["f1"], [("r", "v")]))
        ⟨[], []⟩ (RawObj.cons "x" (RawVal.scalar "1") .nil)
        ⟨3, RawVal.obj .nil⟩).1.files 3 = some ["f1"]) :=
  ⟨rfl, validate_success_returns_tuple _ _ _ _ _ _ _ _ rfl⟩

theorem memTop_sname_mem {c : Content} {t : Struct} (hm : c.memTop t) :
    t.sname ∈ c.snames := by
  induction c using Content.inductionOn with
  | nil => simp [Content.memTop] at hm
  | cons s rest ih =>
    simp only [Content.memTop] at hm
    rcases hm with h | h
    · subst h; simp [Content.snames]
    · simp only [Content.snames, List.mem_cons]
      exact Or.inr (ih h)

theorem memTop_levelsNodupS {c : Content} {t : Struct}
    (hn : c.levelsNodup = true) (hm : c.memTop t) : t.levelsNodupS = true := by
  induction c using Content.inductionOn with
  | nil => simp [Content.memTop] at hm
  | cons s rest ih =>
    simp only [Content.levelsNodup, Bool.and_eq_true] at hn
    simp only [Content.memTop] at hm
    rcases hm with h | h
    · exact h ▸ hn.1.2
    · exact ih hn.2 h

theorem reach_levelsNodup {c0 c : Content}
    (hn : c0.levelsNodup = true) (hr : ContentReach c0 c) : c.levelsNodup = true := by
  induction hr with
  | refl => exact hn
  | group _ hm ih => exact memTop_levelsNodupS ih hm

theorem memTop_find_compile {c : Content} {t : Struct}
    (hn : c.levelsNodup = true) (hm : c.memTop t) :
    c.compile.find? t.sname = some (t.requiredFlag, t.schemaOf) := by
  induction c using Content.inductionOn with
  | nil => simp [Content.memTop] at hm
  | cons s rest ih =>
    simp only [Content.levelsNodup, Bool.and_eq_true] at hn
    simp only [Content.memTop] at hm
    rcases hm with h | h
    · subst h
      simp [Content.compile, SchemaObj.find?]
    · have hne : s.sname ≠ t.sname := by
        intro he
        have hni := hn.1.1
        simp only [Bool.not_eq_true', decide_eq_false_iff_not] at hni
        exact hni (he ▸ memTop_sname_mem h)
      simp only [Content.compile, SchemaObj.find?, if_neg hne]
      exact ih hn.2 h

theorem rnames_mem_of_required {c : Content} {t : Struct}
    (hm : c.memTop t) (hf : t.requiredFlag = true) : t.sname ∈ c.rnames := by
  induction c using Content.inductionOn with
  | nil => simp [Content.memTop] at hm
  | cons s rest ih =>
    simp only [Content.memTop] at hm
    rcases hm with h | h
    · subst h
      simp [Content.rnames, hf]
    · cases hs : s.requiredFlag <;> simp [Content.rnames, hs, ih h]

/-- The compiled schema's required marks are exactly the content's
required-name set. -/
theorem requiredKeys_compile (c : Content) :
    c.compile.requiredKeys = c.rnames := by
  induction c using Content.inductionOn with
  | nil => rfl
  | cons s rest ih =>
    cases hs : s.requiredFlag <;>
      simp [Content.compile, SchemaObj.requiredKeys, Content.rnames, hs, ih]

theorem checkObj_none_of_required_absent {c : Content} {r : String}
    (hr : r ∈ c.rnames) (o : RawObj) (ho : o.lookup r = none) :
    checkObj c.compile o = none := by
  cases hcr : checkRequired c.compile o with
  | false => simp [checkObj, hcr]
  | true =>
    exfalso
    rw [checkRequired, requiredKeys_compile] at hcr
    have := List.all_eq_true.mp hcr r hr
    rw [ho] at this
    simp at this

/-- C6: for every structure at every level the schema compiler visits, the
structure's key in the produced validator schema is marked required iff the
structure's required flag (field-level for Fields, the group-level flag for
Groups) is true; moreover a marked key that is absent from a document makes
validation of that document fail. -/
theorem schema_marks_required_iff_flag (b : Base) (c : Content) (t : Struct)
    (hn : b.content.levelsNodup = true) (hr : ContentReach b.content c)
    (hm : c.memTop t) :
    c.compile.find? t.sname = some (t.requiredFlag, t.schemaOf) ∧
    (t.requiredFlag = true →
      ∀ o : RawObj, o.lookup t.sname = none → checkObj c.compile o = none) := by
  refine ⟨memTop_find_compile (reach_levelsNodup hn hr) hm, fun hf o ho => ?_⟩
  exact checkObj_none_of_required_absent (rnames_mem_of_required hm hf) o ho

/-- Witness for C6 at the sample base: the compiled schema marks `title`
(required flag true) as required, and a document missing `title` fails
validation. -/
theorem schema_marks_required_iff_flag_witness :
    sampleContent.levelsNodup = true ∧
    sampleContent.memTop (.fld titleField) ∧
    sampleContent.compile.find? "title" =
      some (true, .fieldv titleField.datatype false) ∧
    checkObj sampleContent.compile (RawObj.cons "x" (RawVal.scalar "1") .nil) = none := by
  refine ⟨rfl, Or.inl rfl, ?_, ?_⟩
  · exact (schema_marks_required_iff_flag sampleBase sampleContent (.fld titleField)
      rfl (ContentReach.refl _) (Or.inl rfl)).1
  · exact (schema_marks_required_iff_flag sampleBase sampleContent (.fld titleField)
      rfl (ContentReach.refl _) (Or.inl rfl)).2 rfl _ rfl

theorem RawObj.lookup_eraseKey_none {o : RawObj} {r k : String}
    (h : o.lookup r = none) : (o.eraseKey k).lookup r = none := by
  induction o using RawObj.inductionOn with
  | nil => rfl
  | cons k2 v rest ih =>
    by_cases hk2 : k2 = r
    · simp [RawObj.lookup, hk2] at h
    · simp only [RawObj.lookup, if_neg hk2] at h
      by_cases he : k2 = k
      · simp [RawObj.eraseKey, he, ih h]
      · simp [RawObj.eraseKey, he, RawObj.lookup, hk2, ih h]

theorem RawObj.lookup_setKey_self (o : RawObj) (k : String) (v : RawVal) :
    (o.setKey k v).lookup k = some v := by
  induction o using RawObj.inductionOn with
  | nil => simp [RawObj.setKey, RawObj.lookup]
  | cons k2 w rest ih =>
    by_cases he : k2 = k
    · simp [RawObj.setKey, he, RawObj.lookup]
    · simp [RawObj.setKey, he, RawObj.lookup, ih]

theorem validate_eq_of_error (b : Base) (sfun : SchemaFun) (st : ScratchState)
    (document : RawObj) (meta : DocumentMetadata) (e : String)
    (h : sfun (document.eraseKey "_metadata") [] [] = .error e) :
    b.validate sfun st document meta =
      (⟨delA (setA st.files meta.id_doc []) meta.id_doc,
        delA (setA st.reldata meta.id_doc []) meta.id_doc⟩,
       document.eraseKey "_metadata", .error (.docValidation e)) := by
  simp only [Base.validate, h]

theorem validate_eq_of_ok (b : Base) (sfun : SchemaFun) (st : ScratchState)
    (document : RawObj) (meta : DocumentMetadata) (doc2 : RawObj)
    (fl : List FileRef) (rl : RelMap)
    (h : sfun (document.eraseKey "_metadata") [] [] = .ok (doc2, fl, rl)) :
    b.validate sfun st document meta =
      (⟨setA (setA st.files meta.id_doc []) meta.id_doc fl,
        setA (setA st.reldata meta.id_doc []) meta.id_doc rl⟩,
       document.eraseKey "_metadata",
       .ok (doc2.setKey "_metadata" meta.mdict, rl, fl, [])) := by
  simp only [Base.validate, h]

/-- C9 amended: `Base.validate` removes `'_metadata'` from the caller's
mapping before compiling the schema and never restores it there, on failure
or success alike; on success the metadata object's attribute dictionary (not
the object itself) is attached under `'_metadata'` in the returned validated
mapping — the schema application's fresh output, not the caller's mapping. -/
theorem validate_strips_caller_mapping (b : Base) (sfun : SchemaFun)
    (st : ScratchState) (document : RawObj) (meta : DocumentMetadata) :
    (b.validate sfun st document meta).2.1 = document.eraseKey "_metadata" ∧
    (∀ d2 rl fl ws, (b.validate sfun st document meta).2.2 = .ok (d2, rl, fl, ws) →
      d2.lookup "_metadata" = some meta.mdict) := by
  cases hs : sfun (document.eraseKey "_metadata") [] [] with
  | error e =>
    rw [validate_eq_of_error b sfun st document meta e hs]
    exact ⟨rfl, fun d2 rl fl ws h => absurd h (by simp)⟩
  | ok t =>
    obtain ⟨doc2, fl, rl⟩ := t
    rw [validate_eq_of_ok b sfun st document meta doc2 fl rl hs]
    refine ⟨rfl, fun d2 rl2 fl2 ws h => ?_⟩
    simp only [Except.ok.injEq, Prod.mk.injEq] at h
    rw [← h.1]
    exact RawObj.lookup_setKey_self _ _ _

/-- Witness for the amended C9: a concrete successful run; the caller's
mapping equals the stripped input and the returned document carries the
metadata dictionary. -/
theorem validate_strips_caller_mapping_witness :
    (sampleBase.validate (fun d fl rl => .ok (d, fl, rl)) ⟨[], []⟩
        (RawObj.cons "y" (RawVal.scalar "2") .nil) ⟨2, RawVal.scalar "m"⟩).2.1 =
      (RawObj.cons "y" (RawVal.scalar "2") .nil).eraseKey "_metadata" ∧
    (sampleBase.validate (fun d fl rl => .ok (d, fl, rl)) ⟨[], []⟩
        (RawObj.cons "y" (RawVal.scalar "2") .nil) ⟨2, RawVal.scalar "m"⟩).2.2 =
      .ok (RawObj.cons "y" (RawVal.scalar "2")
            (RawObj.cons "_metadata" (RawVal.scalar "m") .nil), [], [], []) ∧
    (RawObj.cons "y" (RawVal.scalar "2")
        (RawObj.cons "_metadata" (RawVal.scalar "m") .nil)).lookup "_metadata" =
      some (RawVal.scalar "m") :=
  ⟨(validate_strips_caller_mapping sampleBase (fun d fl rl => .ok (d, fl, rl))
      ⟨[], []⟩ (RawObj.cons "y" (RawVal.scalar "2") .nil) ⟨2, RawVal.scalar "m"⟩).1,
   rfl,
   (validate_strips_caller_mapping sampleBase (fun d fl rl => .ok (d, fl, rl))
      ⟨[], []⟩ (RawObj.cons "y" (RawVal.scalar "2") .nil)
      ⟨2, RawVal.scalar "m"⟩).2 _ _ _ _ rfl⟩

/-- C9 as stated is false at this input: after a successful validation the
caller's mapping has lost its `'_metadata'` key and does not get it back —
`document = _schema(document)` (struct.py 99) rebinds the local name to the
validator's freshly built output mapping, so the reattachment of line 108
lands on the returned document only, not "in the same mapping". -/
theorem validate_metadata_not_reattached_in_caller_mapping :
    ((sampleBase.validate (fun d fl rl => .ok (d, fl, rl)) ⟨[], []⟩
        (RawObj.cons "_metadata" (RawVal.obj .nil)
          (RawObj.cons "x" (RawVal.scalar "1") .nil))
        ⟨1, RawVal.obj .nil⟩).2.1.lookup "_metadata" = none) ∧
    ((sampleBase.validate (fun d fl rl => .ok (d, fl, rl)) ⟨[], []⟩
        (RawObj.cons "_metadata" (RawVal.obj .nil)
          (RawObj.cons "x" (RawVal.scalar "1") .nil))
        ⟨1, RawVal.obj .nil⟩).2.2 =
      .ok (RawObj.cons "x" (RawVal.scalar "1")
            (RawObj.cons "_metadata" (RawVal.obj .nil) .nil), [], [], [])) :=
  ⟨rfl, rfl⟩

theorem fieldElems_ok_iff (f : Field) (es : SetList) (bs : RawList) :
    fieldElems f es = .ok bs ↔ ElemsNorm f es bs := by
  constructor
  · intro h
    induction es using SetList.inductionOn generalizing bs with
    | nil =>
      simp only [fieldElems] at h
      cases h
      exact ElemsNorm.nil
    | cons e rest ih =>
      cases e with
      | scal a =>
        simp only [fieldElems] at h
        cases hd : f.datatype a with
        | none => rw [hd] at h; simp at h
        | some b2 =>
          rw [hd] at h
          cases hr : fieldElems f rest with
          | error e2 => rw [hr] at h; simp [Except.map] at h
          | ok rest2 =>
            rw [hr] at h
            simp only [Except.map] at h
            cases h
            exact ElemsNorm.cons hd (ih rest2 hr)
      | dict o => simp [fieldElems] at h
      | list l => simp [fieldElems] at h
      | inst i => simp [fieldElems] at h
  · intro h
    induction h with
    | nil => rfl
    | cons hd _ ih => simp [fieldElems, hd, ih, Except.map]

/-- C7: construction of the field value wrapper and every assignment are the
same validation routine; a multivalued field requires a list whose elements
are validated independently, the stored `__value__` being the normalized
list; a single-valued field validates the scalar directly; in every case the
stored value is the validator's output, never the unvalidated input. -/
theorem field_wrapper_routes_through_validator (f : Field) (v : SetVal) :
    fieldInit f v = fieldSetattr f v ∧
    (f.multivalued = true →
      ((∀ es, v ≠ .list es) → fieldSetattr f v = .error (.typeMismatch f.name)) ∧
      (∀ es, v = .list es →
        (∀ bs, (fieldSetattr f v = .ok (.arr bs) ↔ ElemsNorm f es bs)) ∧
        (∀ w, fieldSetattr f v = .ok w → ∃ bs, w = .arr bs))) ∧
    (f.multivalued = false →
      ((∀ a, v ≠ .scal a) → fieldSetattr f v = .error (.fieldValidation f.name)) ∧
      (∀ a, v = .scal a → ∀ w,
        (fieldSetattr f v = .ok w ↔ ∃ b2, f.datatype a = some b2 ∧ w = .scalar b2))) := by
  refine ⟨rfl, fun hm => ⟨fun hnl => ?_, fun es hv => ?_⟩,
    fun hm => ⟨fun hns => ?_, fun a hv w => ?_⟩⟩
  · cases v with
    | list es => exact absurd rfl (hnl es)
    | scal a => simp [fieldSetattr, hm]
    | dict o => simp [fieldSetattr, hm]
    | inst i => simp [fieldSetattr, hm]
  · subst hv
    constructor
    · intro bs
      simp only [fieldSetattr, hm, if_true]
      constructor
      · intro h
        cases hr : fieldElems f es with
        | error e2 => rw [hr] at h; simp [Except.map] at h
        | ok bs2 =>
          rw [hr] at h
          simp only [Except.map, Except.ok.injEq, RawVal.arr.injEq] at h
          exact (fieldElems_ok_iff f es bs).mp (h ▸ hr)
      · intro h
        rw [(fieldElems_ok_iff f es bs).mpr h]
        rfl
    · intro w h
      simp only [fieldSetattr, hm, if_true] at h
      cases hr : fieldElems f es with
      | error e2 => rw [hr] at h; simp [Except.map] at h
      | ok bs2 =>
        rw [hr] at h
        simp only [Except.map, Except.ok.injEq] at h
        exact ⟨bs2, h.symm⟩
  · cases v with
    | scal a => exact absurd rfl (hns a)
    | dict o => simp [fieldSetattr, hm]
    | list es => simp [fieldSetattr, hm]
    | inst i => simp [fieldSetattr, hm]
  · subst hv
    simp only [fieldSetattr, hm]
    cases hd : f.datatype a with
    | none => simp
    | some b2 => simp [eq_comm]

/-- Witness for C7 at a concrete multivalued field whose validator appends
`"!"`: construction equals assignment, a valid list is normalized
elementwise, and a non-list input fails with TypeMismatch. -/
theorem field_wrapper_routes_through_validator_witness :
    fieldInit ⟨"tags", fun s => some (s ++ "!"), false, true, false⟩
        (.list (.cons (.scal "a") .nil)) =
      fieldSetattr ⟨"tags", fun s => some (s ++ "!"), false, true, false⟩
        (.list (.cons (.scal "a") .nil)) ∧
    fieldSetattr ⟨"tags", fun s => some (s ++ "!"), false, true, false⟩
        (.list (.cons (.scal "a") .nil)) =
      .ok (.arr (.cons (.scalar "a!") .nil)) ∧
    fieldSetattr ⟨"tags", fun s => some (s ++ "!"), false, true, false⟩ (.scal "a") =
      .error (.typeMismatch "tags") := by
  refine ⟨(field_wrapper_routes_through_validator _ _).1, ?_, ?_⟩
  · exact (((field_wrapper_routes_through_validator
      ⟨"tags", fun s => some (s ++ "!"), false, true, false⟩ _).2.1 rfl).2 _ rfl).1
      _ |>.mpr (ElemsNorm.cons rfl ElemsNorm.nil)
  · exact ((field_wrapper_routes_through_validator
      ⟨"tags", fun s => some (s ++ "!"), false, true, false⟩ _).2.1 rfl).1
      (fun es h => SetVal.noConfusion h)

/-- C8: appending an element that is not an instance of the group's
generated type through `MultiGroupMetaClass.append` fails with TypeMismatch
and leaves the backing list unchanged, in particular its length. -/
theorem multi_append_wrong_type_unchanged (gname : String) (l : InstList)
    (e : SetVal) (h : ∀ i : DocInst, e = .inst i → i.cls ≠ gname) :
    multiAppend gname l e = (l, some (.typeMismatch gname)) ∧
    (multiAppend gname l e).1.length = l.length := by
  have hm : multiAppend gname l e = (l, some (.typeMismatch gname)) := by
    cases e with
    | inst i => simp [multiAppend, h i rfl]
    | scal a => rfl
    | dict o => rfl
    | list es => rfl
  exact ⟨hm, by rw [hm]⟩

/-- Witness for C8: appending an instance of the wrong generated class to a
one-element backing list fails and the length stays 1. -/
theorem multi_append_wrong_type_unchanged_witness :
    multiAppend "author" (.cons (.mk "author" .nil) .nil) (.inst (.mk "tags" .nil)) =
      (.cons (.mk "author" .nil) .nil, some (.typeMismatch "author")) ∧
    (multiAppend "author" (.cons (.mk "author" .nil) .nil)
        (.inst (.mk "tags" .nil))).1.length =
      (InstList.cons (.mk "author" .nil) .nil).length :=
  multi_append_wrong_type_unchanged "author" _ _
    (fun i hi => by cases hi; decide)

/-- C3 fails as stated on struct.py's `Base._make_meta_prop` setter (the
accessors of the top-level Base metaclass): the element-checked list is
stored as the plain Python list, not as the re-checking
`MultiGroupMetaClass`, so a later heterogeneous `append` through the stored
object succeeds. -/
theorem group_setter_stores_plain_list_counterexample :
    setterVal false (.grp ⟨"tags", true, false⟩ .nil)
        (.list (.cons (.inst (.mk "tags" .nil)) .nil)) =
      .ok (.glist false (.cons (.mk "tags" .nil) .nil)) ∧
    storedAppend "tags" (.glist false (.cons (.mk "tags" .nil) .nil))
        (.mk "other" .nil) =
      (.glist false (.cons (.mk "tags" .nil) (.cons (.mk "other" .nil) .nil)), none) :=
  ⟨rfl, rfl⟩

/-- C3 amended: through metaclass.py's generated accessor (`wrapMulti =
true`, the accessors of the nested struct metaclasses), assignment to a
multivalued Group slot fails with TypeMismatch unless the value is a list
whose every element is an instance of the group's generated type, and the
stored value is the `MultiGroupMetaClass` wrapper, which re-checks the
element class on every append and index assignment, leaving the list
unchanged on a mismatch.  (struct.py's top-level setter performs the same
assignment-time checks but stores the plain list, see the counterexample.) -/
theorem group_setter_multivalued_rechecks (m : GroupMetadata) (c : Content)
    (v : SetVal) (hm : m.multivalued = true) :
    ((∀ es, v ≠ .list es) →
      setterVal true (.grp m c) v = .error (.typeMismatch m.name)) ∧
    (∀ es, v = .list es → allInst m.name es = false →
      setterVal true (.grp m c) v = .error (.typeMismatch m.name)) ∧
    (∀ es, v = .list es → allInst m.name es = true →
      setterVal true (.grp m c) v = .ok (.glist true (instsOf es))) ∧
    (∀ l (i : DocInst), i.cls ≠ m.name →
      storedAppend m.name (.glist true l) i =
        (.glist true l, some (.typeMismatch m.name))) ∧
    (∀ l idx e, (∀ i : DocInst, e = .inst i → i.cls ≠ m.name) →
      multiSetitem m.name l idx e = (l, some (.typeMismatch m.name))) := by
  refine ⟨fun hnl => ?_, fun es hv ha => ?_, fun es hv ha => ?_,
    fun l i hi => ?_, fun l idx e he => ?_⟩
  · cases v with
    | list es => exact absurd rfl (hnl es)
    | scal a => simp [setterVal, hm]
    | dict o => simp [setterVal, hm]
    | inst i => simp [setterVal, hm]
  · subst hv; simp [setterVal, hm, ha]
  · subst hv; simp [setterVal, hm, ha]
  · simp [storedAppend, multiAppend, hi]
  · cases e with
    | inst i => simp [multiSetitem, he i rfl]
    | scal a => rfl
    | dict o => rfl
    | list es => rfl

/-- Witness for the amended C3: a well-typed list is stored wrapped, a
non-list fails, and the wrapped list rejects a wrong-class append leaving
the list as it was. -/
theorem group_setter_multivalued_rechecks_witness :
    setterVal true (.grp ⟨"tags", true, false⟩ .nil)
        (.list (.cons (.inst (.mk "tags" .nil)) .nil)) =
      .ok (.glist true (.cons (.mk "tags" .nil) .nil)) ∧
    setterVal true (.grp ⟨"tags", true, false⟩ .nil) (.scal "x") =
      .error (.typeMismatch "tags") ∧
    storedAppend "tags" (.glist true (.cons (.mk "tags" .nil) .nil)) (.mk "other" .nil) =
      (.glist true (.cons (.mk "tags" .nil) .nil), some (.typeMismatch "tags")) := by
  refine ⟨?_, ?_, ?_⟩
  · exact (group_setter_multivalued_rechecks ⟨"tags", true, false⟩ .nil _ rfl).2.2.1
      _ rfl rfl
  · exact (group_setter_multivalued_rechecks ⟨"tags", true, false⟩ .nil _ rfl).1
      (fun es h => SetVal.noConfusion h)
  · exact (group_setter_multivalued_rechecks ⟨"tags", true, false⟩ .nil
      (.scal "x") rfl).2.2.2.1 _ _ (by decide)

theorem constructLoop_append (w : Bool) (c : Content) (slots slots1 : Slots)
    (pre rest : List (String × SetVal))
    (h : constructLoop w c slots pre = (slots1, none)) :
    constructLoop w c slots (pre ++ rest) = constructLoop w c slots1 rest := by
  induction pre generalizing slots with
  | nil =>
    simp only [constructLoop] at h
    cases h
    rw [List.nil_append]
  | cons p pre ih =>
    obtain ⟨k, v⟩ := p
    cases hf : c.find? k with
    | none =>
      simp only [constructLoop, hf] at h
      simp at h
    | some s =>
      cases hsv : setterVal w s v with
      | error e =>
        simp only [constructLoop, hf, hsv] at h
        simp at h
      | ok dv =>
        simp only [List.cons_append, constructLoop, hf, hsv] at h ⊢
        exact ih _ h

/-- C10: the generated constructor checks the required names before any slot
assignment (a missing required name wins even when the input also holds
unknown names or invalid values), while name legality and setter validation
run per keyword argument in iteration order: when the loop fails at an
argument — unknown name or a value the accessor rejects — everything
processed before it is already validated and assigned on the instance under
construction. -/
theorem construct_checks_required_first_then_assigns_in_order
    (w : Bool) (cn : String) (c : Content) (slots0 slots1 : Slots)
    (pre post : List (String × SetVal)) (k : String) (v : SetVal)
    (hpre : constructLoop w c slots0 pre = (slots1, none)) :
    (∀ kwargs, missingNames c kwargs ≠ [] →
      construct w cn c kwargs = .error (.missingRequired (missingNames c kwargs))) ∧
    (c.find? k = none →
      constructLoop w c slots0 (pre ++ (k, v) :: post) =
        (slots1, some (.unknownStructure k))) ∧
    (∀ s e, c.find? k = some s → setterVal w s v = .error e →
      constructLoop w c slots0 (pre ++ (k, v) :: post) = (slots1, some e)) := by
  refine ⟨fun kwargs hmiss => ?_, fun hf => ?_, fun s e hf hsv => ?_⟩
  · simp [construct, hmiss]
  · rw [constructLoop_append w c slots0 slots1 pre _ hpre]
    simp [constructLoop, hf]
  · rw [constructLoop_append w c slots0 slots1 pre _ hpre]
    simp [constructLoop, hf, hsv]

/-- Witness for C10: with content `[title, author]`, kwargs `title = "X"`
then unknown `bogus`: the loop fails at `bogus` with the `title` slot
already assigned. -/
theorem construct_checks_required_first_witness :
    constructLoop false sampleContent .nil [("title", .scal "X")] =
      (Slots.cons "title" (.fieldv (.scalar "X")) .nil, none) ∧
    construct false "sample" sampleContent [] =
      .error (.missingRequired ["title", "author"]) ∧
    constructLoop false sampleContent .nil
        ([("title", .scal "X")] ++ ("bogus", .scal "1") :: []) =
      (Slots.cons "title" (.fieldv (.scalar "X")) .nil,
       some (.unknownStructure "bogus")) := by
  refine ⟨rfl, ?_, ?_⟩
  · exact (construct_checks_required_first_then_assigns_in_order false "sample"
      sampleContent .nil (Slots.cons "title" (.fieldv (.scalar "X")) .nil)
      [("title", .scal "X")] [] "bogus" (.scal "1") rfl).1 [] (by decide)
  · exact (construct_checks_required_first_then_assigns_in_order false "sample"
      sampleContent .nil (Slots.cons "title" (.fieldv (.scalar "X")) .nil)
      [("title", .scal "X")] [] "bogus" (.scal "1") rfl).2.1 rfl

/-- C4: a keyword input set missing at least one required name makes the
generated constructor fail with MissingRequiredStructure (for both generator
variants, any `wrapMulti`), and full validation of a raw document missing a
required top-level structure leaves no scratch state under the document id
and raises the wrapped validation error. -/
theorem construct_missing_required_fails_and_validate_rolls_back
    (w : Bool) (cn : String) (b : Base) (st : ScratchState) (o : RawObj)
    (meta : DocumentMetadata) (kwargs : List (String × SetVal)) (r : String)
    (hr : r ∈ b.content.rnames) (hk : r ∉ kwargs.map (·.1))
    (ho : o.lookup r = none) :
    (∃ ns, construct w cn b.content kwargs = .error (.missingRequired ns) ∧ r ∈ ns) ∧
    lookupA (b.validate b.schemaFun st o meta).1.files meta.id_doc = none ∧
    lookupA (b.validate b.schemaFun st o meta).1.reldata meta.id_doc = none ∧
    (∃ cause, (b.validate b.schemaFun st o meta).2.2 = .error (.docValidation cause)) := by
  have hmem : r ∈ missingNames b.content kwargs := by
    simp only [missingNames, List.mem_filter, Bool.not_eq_true', decide_eq_false_iff_not]
    exact ⟨hr, hk⟩
  have hne : missingNames b.content kwargs ≠ [] := List.ne_nil_of_mem hmem
  have hck : checkObj b.content.compile (o.eraseKey "_metadata") = none :=
    checkObj_none_of_required_absent hr _ (RawObj.lookup_eraseKey_none ho)
  have hsf : b.schemaFun (o.eraseKey "_metadata") [] [] =
      .error "document data is not according to base definition" := by
    simp only [Base.schemaFun, hck]
  rw [validate_eq_of_error b b.schemaFun st o meta _ hsf]
  refine ⟨⟨missingNames b.content kwargs, ?_, hmem⟩,
    lookupA_delA _ _, lookupA_delA _ _, ⟨_, rfl⟩⟩
  simp [construct, hne]

/-- Witness for C4: the spec §8 scenario `{"title": "X"}` against the sample
base — the constructor fails with MissingRequiredStructure("author") and the
scratch entries for the id are gone after the failed validation. -/
theorem construct_missing_required_fails_witness :
    (∃ ns, construct false "sample" sampleBase.content [("title", .scal "X")] =
        .error (.missingRequired ns) ∧ "author" ∈ ns) ∧
    lookupA (sampleBase.validate sampleBase.schemaFun ⟨[], []⟩
        (RawObj.cons "title" (RawVal.scalar "X") .nil) ⟨9, RawVal.obj .nil⟩).1.files 9 =
      none ∧
    lookupA (sampleBase.validate sampleBase.schemaFun ⟨[], []⟩
        (RawObj.cons "title" (RawVal.scalar "X") .nil) ⟨9, RawVal.obj .nil⟩).1.reldata 9 =
      none ∧
    (∃ cause, (sampleBase.validate sampleBase.schemaFun ⟨[], []⟩
        (RawObj.cons "title" (RawVal.scalar "X") .nil)
        ⟨9, RawVal.obj .nil⟩).2.2 = .error (.docValidation cause)) :=
  construct_missing_required_fails_and_validate_rolls_back false "sample"
    sampleBase ⟨[], []⟩ _ _ [("title", .scal "X")] "author"
    (by decide) (by decide) rfl


theorem Slots.lookup_set_self (sl : Slots) (k : String) (dv : DocVal) :
    (sl.set k dv).lookup k = some dv := by
  induction sl using Slots.inductionOn with
  | nil => simp [Slots.set, Slots.lookup]
  | cons k2 w rest ih =>
    by_cases h : k2 = k
    · simp [Slots.set, h, Slots.lookup]
    · simp [Slots.set, h, Slots.lookup, ih]

theorem Slots.lookup_set_ne (sl : Slots) (k key : String) (dv : DocVal)
    (h : k ≠ key) : (sl.set k dv).lookup key = sl.lookup key := by
  induction sl using Slots.inductionOn with
  | nil => simp [Slots.set, Slots.lookup, h]
  | cons k2 w rest ih =>
    by_cases h2 : k2 = k
    · subst h2; simp [Slots.set, Slots.lookup, h, ih]
    · simp [Slots.set, h2, Slots.lookup, ih]

theorem RawObj.lookup_isSome_iff (o : RawObj) (k : String) :
    ((o.lookup k).isSome = true) ↔ k ∈ o.keys := by
  induction o using RawObj.inductionOn with
  | nil => simp [RawObj.lookup, RawObj.keys]
  | cons k2 v rest ih =>
    by_cases h : k2 = k
    · simp [RawObj.lookup, RawObj.keys, h]
    · simp only [RawObj.lookup, if_neg h, RawObj.keys, List.mem_cons, ih]
      constructor
      · exact Or.inr
      · rintro (h2 | h2)
        · exact absurd h2.symm h
        · exact h2

theorem RawObj.keys_nodup (o : RawObj) (h : o.wfKeysO = true) : o.keys.Nodup := by
  induction o using RawObj.inductionOn with
  | nil => exact List.nodup_nil
  | cons k v rest ih =>
    rw [RawObj.wfKeysO, Bool.and_eq_true, Bool.and_eq_true] at h
    refine List.nodup_cons.mpr ⟨fun hmem => ?_, ih h.2⟩
    have := (RawObj.lookup_isSome_iff rest k).mpr hmem
    rw [Option.isNone_iff_eq_none.mp h.1.1] at this
    simp at this

theorem RawObj.keys_length (o : RawObj) : o.keys.length = o.size := by
  induction o using RawObj.inductionOn with
  | nil => rfl
  | cons k v rest ih => simp [RawObj.keys, RawObj.size, ih]

theorem snames_nodup_of_levelsNodup (c : Content) (h : c.levelsNodup = true) :
    c.snames.Nodup := by
  induction c using Content.inductionOn with
  | nil => exact List.nodup_nil
  | cons s rest ih =>
    rw [Content.levelsNodup, Bool.and_eq_true, Bool.and_eq_true] at h
    refine List.nodup_cons.mpr ⟨?_, ih h.2⟩
    have := h.1.1
    simpa using this

theorem Content.find?_memTop {c : Content} {k : String} {s : Struct}
    (h : c.find? k = some s) : c.memTop s ∧ s.sname = k := by
  induction c using Content.inductionOn with
  | nil => simp [Content.find?] at h
  | cons s2 rest ih =>
    by_cases he : s2.sname = k
    · rw [Content.find?, if_pos he] at h
      cases h
      exact ⟨Or.inl rfl, he⟩
    · rw [Content.find?, if_neg he] at h
      obtain ⟨hm, hs⟩ := ih h
      exact ⟨Or.inr hm, hs⟩

theorem consistentC_memTop {b : Base} {c : Content} {t : Struct}
    (hc : b.consistentC c) (hm : c.memTop t) :
    b.get_struct t.sname = some t ∧ b.consistentS t := by
  induction c using Content.inductionOn with
  | nil => simp [Content.memTop] at hm
  | cons s rest ih =>
    rw [Base.consistentC] at hc
    simp only [Content.memTop] at hm
    rcases hm with h | h
    · subst h; exact ⟨hc.1, hc.2.1⟩
    · exact ih hc.2.2 h

theorem noNormC_memTop {c : Content} {t : Struct}
    (hn : c.noNormC) (hm : c.memTop t) : t.noNormS := by
  induction c using Content.inductionOn with
  | nil => simp [Content.memTop] at hm
  | cons s rest ih =>
    rw [Content.noNormC] at hn
    simp only [Content.memTop] at hm
    rcases hm with h | h
    · subst h; exact hn.1
    · exact ih hn.2 h

theorem compile_find? (c : Content) (k : String) :
    c.compile.find? k = (c.find? k).map (fun s => (s.requiredFlag, s.schemaOf)) := by
  induction c using Content.inductionOn with
  | nil => rfl
  | cons s rest ih =>
    by_cases h : s.sname = k <;>
      simp [Content.compile, SchemaObj.find?, Content.find?, h, ih]

theorem RawObj.eraseKey_of_lookup_none {o : RawObj} {k : String}
    (h : o.lookup k = none) : o.eraseKey k = o := by
  induction o using RawObj.inductionOn with
  | nil => rfl
  | cons k2 v rest ih =>
    by_cases h2 : k2 = k
    · simp [RawObj.lookup, h2] at h
    · simp only [RawObj.lookup, if_neg h2] at h
      simp [RawObj.eraseKey, h2, ih h]

theorem lookupIn_slotOutcomes (b : Base) (sl : Slots) (k : String) :
    Outcome.lookupIn (slotOutcomes b sl) k = (sl.lookup k).map (slotOutcome b k) := by
  induction sl using Slots.inductionOn with
  | nil => rfl
  | cons k2 dv rest ih =>
    by_cases h : k2 = k
    · subst h
      simp [slotOutcomes, Outcome.lookupIn, Slots.lookup]
    · simp [slotOutcomes, Outcome.lookupIn, Slots.lookup, h]
      simpa [Outcome.lookupIn] using ih

theorem instsOf_ofInsts (il : InstList) : instsOf (SetList.ofInsts il) = il := by
  induction il using InstList.inductionOn with
  | nil => rfl
  | cons i rest ih => simp [SetList.ofInsts, instsOf, ih]

theorem pyEqObjSub_cons_notmem (xs : RawObj) (k : String) (v : RawVal)
    (ys : RawObj) (h : xs.lookup k = none) :
    pyEqObjSub xs (.cons k v ys) = pyEqObjSub xs ys := by
  induction xs using RawObj.inductionOn with
  | nil => rfl
  | cons k2 v2 rest ih =>
    by_cases hk : k2 = k
    · simp [RawObj.lookup, hk] at h
    · simp only [RawObj.lookup, if_neg hk] at h
      have hne : k ≠ k2 := fun he => hk he.symm
      simp only [pyEqObjSub, RawObj.lookup, if_neg hne, ih h]

mutual
theorem pyEq_refl : ∀ (v : RawVal), v.wfKeys = true → pyEq v v = true
  | .scalar a, _ => by simp [pyEq]
  | .arr l, h => by
    simp only [pyEq]
    exact pyEqList_refl l h
  | .obj o, h => by
    simp only [pyEq, Bool.and_eq_true]
    exact ⟨pyEqObjSub_refl o h, by simp⟩

theorem pyEqList_refl : ∀ (l : RawList), l.wfKeysL = true → pyEqList l l = true
  | .nil, _ => rfl
  | .cons v rest, h => by
    rw [RawList.wfKeysL, Bool.and_eq_true] at h
    simp only [pyEqList, Bool.and_eq_true]
    exact ⟨pyEq_refl v h.1, pyEqList_refl rest h.2⟩

theorem pyEqObjSub_refl : ∀ (o : RawObj), o.wfKeysO = true → pyEqObjSub o o = true
  | .nil, _ => rfl
  | .cons k v rest, h => by
    rw [RawObj.wfKeysO, Bool.and_eq_true, Bool.and_eq_true] at h
    obtain ⟨⟨h1, h2⟩, h3⟩ := h
    have hl : (RawObj.cons k v rest).lookup k = some v := by simp [RawObj.lookup]
    simp only [pyEqObjSub, hl, Bool.and_eq_true]
    refine ⟨pyEq_refl v h2, ?_⟩
    rw [pyEqObjSub_cons_notmem rest k v rest (Option.isNone_iff_eq_none.mp h1)]
    exact pyEqObjSub_refl rest h3
end

theorem checkScalarList_noNorm {f : Field}
    (hnn : ∀ a b2, f.datatype a = some b2 → b2 = a) :
    ∀ (l l2 : RawList), checkScalarList f.datatype l = some l2 →
      l2 = l ∧ fieldElems f (SetList.ofRawList l) = .ok l := by
  intro l
  induction l using RawList.inductionOn with
  | nil =>
    intro l2 h
    cases h
    exact ⟨rfl, rfl⟩
  | cons v rest ih =>
    intro l2 h
    cases v with
    | scalar a =>
      simp only [checkScalarList] at h
      cases hd : f.datatype a with
      | none => rw [hd] at h; simp at h
      | some b2 =>
        rw [hd] at h
        cases hr : checkScalarList f.datatype rest with
        | none => rw [hr] at h; simp at h
        | some rest2 =>
          rw [hr] at h
          cases h
          obtain ⟨he, hf⟩ := ih rest2 hr
          subst he
          have hb := hnn a b2 hd
          subst hb
          refine ⟨rfl, ?_⟩
          simp [SetList.ofRawList, SetVal.ofRaw, fieldElems, hd, hf, Except.map]
    | arr l2x => simp [checkScalarList] at h
    | obj o2x => simp [checkScalarList] at h

theorem fieldSetattr_ofRaw_noNorm {f : Field}
    (hnn : ∀ a b2, f.datatype a = some b2 → b2 = a)
    {v v2 : RawVal}
    (hck : checkVal (.fieldv f.datatype f.multivalued) v = some v2) :
    v2 = v ∧ fieldSetattr f (SetVal.ofRaw v) = .ok v := by
  cases v with
  | arr l =>
    rw [checkVal.eq_def] at hck
    cases hm : f.multivalued with
    | true =>
      rw [hm] at hck
      simp only [if_true] at hck
      cases hcl : checkScalarList f.datatype l with
      | none => rw [hcl] at hck; simp at hck
      | some l2x =>
        rw [hcl] at hck
        simp only [Option.map] at hck
        cases hck
        obtain ⟨he, hf⟩ := checkScalarList_noNorm hnn l l2x hcl
        subst he
        refine ⟨rfl, ?_⟩
        simp [SetVal.ofRaw, fieldSetattr, hm, hf, Except.map]
    | false => rw [hm] at hck; simp at hck
  | scalar a =>
    rw [checkVal.eq_def] at hck
    cases hm : f.multivalued with
    | true => rw [hm] at hck; simp at hck
    | false =>
      rw [hm] at hck
      simp only [if_false] at hck
      cases hd : f.datatype a with
      | none => rw [hd] at hck; simp at hck
      | some b2 =>
        rw [hd] at hck
        simp only [Option.map] at hck
        cases hck
        have hb := hnn a b2 hd
        subst hb
        exact ⟨rfl, by simp [SetVal.ofRaw, fieldSetattr, hm, hd]⟩
  | obj o =>
    rw [checkVal.eq_def] at hck
    cases hm : f.multivalued with
    | true => rw [hm] at hck; simp at hck
    | false => rw [hm] at hck; simp at hck


theorem assembleObj_ok (snames : List String) (outs : List (String × Outcome))
    (o : RawObj)
    (hskip : ∀ k, k ∈ snames → o.lookup k = none → Outcome.lookupIn outs k = none)
    (hval : ∀ k v, k ∈ snames → o.lookup k = some v →
      ∃ rw2, Outcome.lookupIn outs k = some (.val rw2) ∧ pyEq rw2 v = true) :
    ∃ e, assembleObj snames outs = .ok e ∧ pyEqObjSub e o = true ∧
      e.size = (snames.filter (fun k => (o.lookup k).isSome)).length := by
  induction snames with
  | nil => exact ⟨.nil, rfl, rfl, rfl⟩
  | cons k rest ih =>
    obtain ⟨e, he, hsub, hsz⟩ := ih
      (fun k2 h2 => hskip k2 (List.mem_cons_of_mem k h2))
      (fun k2 v h2 => hval k2 v (List.mem_cons_of_mem k h2))
    cases ho : o.lookup k with
    | none =>
      have hli := hskip k (List.mem_cons_self k rest) ho
      refine ⟨e, ?_, hsub, ?_⟩
      · simp only [assembleObj, hli]
        exact he
      · rw [hsz]
        simp [List.filter_cons, ho]
    | some v =>
      obtain ⟨rw2, hli, hpe⟩ := hval k v (List.mem_cons_self k rest) ho
      refine ⟨.cons k rw2 e, ?_, ?_, ?_⟩
      · simp only [assembleObj, hli, he, Except.map]
      · simp only [pyEqObjSub, ho, Bool.and_eq_true]
        exact ⟨hpe, hsub⟩
      · simp only [RawObj.size, hsz]
        simp [List.filter_cons, ho]
    

theorem filter_mem_length {snames keysList : List String}
    (hnd : snames.Nodup) (hknd : keysList.Nodup)
    (hsub : ∀ k, k ∈ keysList → k ∈ snames) :
    (snames.filter (fun k => decide (k ∈ keysList))).length = keysList.length := by
  have h1 : (snames.filter (fun k => decide (k ∈ keysList))).Nodup :=
    hnd.filter _
  have hsp1 : (snames.filter (fun k => decide (k ∈ keysList))) ⊆ keysList := by
    intro x hx
    simp only [List.mem_filter, decide_eq_true_eq] at hx
    exact hx.2
  have hsp2 : keysList ⊆ (snames.filter (fun k => decide (k ∈ keysList))) := by
    intro x hx
    simp only [List.mem_filter, decide_eq_true_eq]
    exact ⟨hsub x hx, hx⟩
  have hA := (List.subperm_of_subset h1 hsp1).length_le
  have hB := (List.subperm_of_subset hknd hsp2).length_le
  omega

theorem filter_isSome_eq (snames : List String) (o : RawObj) :
    snames.filter (fun k => (o.lookup k).isSome) =
      snames.filter (fun k => decide (k ∈ o.keys)) := by
  induction snames with
  | nil => rfl
  | cons k rest ih =>
    have hk : ((o.lookup k).isSome) = decide (k ∈ o.keys) := by
      cases hs : (o.lookup k).isSome
      · symm
        simp only [decide_eq_false_iff_not]
        intro hmem
        rw [(RawObj.lookup_isSome_iff o k).mpr hmem] at hs
        simp at hs
      · symm
        simp only [decide_eq_true_eq]
        exact (RawObj.lookup_isSome_iff o k).mp hs
    simp [List.filter_cons, hk, ih]

theorem checkItems_keys_sub {c : Content} :
    ∀ {o o2 : RawObj}, checkItems c.compile o = some o2 →
      ∀ k, k ∈ o.keys → k ∈ c.snames := by
  intro o
  induction o using RawObj.inductionOn with
  | nil =>
    intro o2 _ k hk
    simp [RawObj.keys] at hk
  | cons k2 v rest ih =>
    intro o2 h k hk
    rw [checkItems] at h
    cases hf : c.compile.find? k2 with
    | none => rw [hf] at h; simp at h
    | some p =>
      rw [hf] at h
      obtain ⟨r, sv⟩ := p
      dsimp only at h
      cases hcv : checkVal sv v with
      | none => rw [hcv] at h; simp at h
      | some w =>
        rw [hcv] at h
        cases hre : checkItems c.compile rest with
        | none => rw [hre] at h; simp at h
        | some rest2 =>
          simp only [RawObj.keys, List.mem_cons] at hk
          rcases hk with hk | hk
          · subst hk
            rw [compile_find?] at hf
            cases hfc : c.find? k with
            | none => rw [hfc] at hf; simp at hf
            | some s =>
              have hm := Content.find?_memTop hfc
              rw [← hm.2]
              exact memTop_sname_mem hm.1
          · exact ih hre k hk

theorem checkObj_inv {so : SchemaObj} {o o2 : RawObj}
    (h : checkObj so o = some o2) :
    checkRequired so o = true ∧ checkItems so o = some o2 := by
  rw [checkObj] at h
  cases hr : checkRequired so o with
  | false => rw [hr] at h; simp at h
  | true => rw [hr] at h; simp at h; exact ⟨rfl, h⟩

theorem missingNames_eq_nil {c : Content} {kw : List (String × SetVal)}
    (h : ∀ r, r ∈ c.rnames → r ∈ kw.map (fun p => p.1)) :
    missingNames c kw = [] := by
  rw [missingNames, List.filter_eq_nil_iff]
  intro r hr
  simp [h r hr]

theorem objOut_of_entries {b : Base} {c : Content} {o o2 : RawObj}
    (hln : c.levelsNodup = true) (hwk : o.wfKeysO = true)
    (hck : checkObj c.compile o = some o2) (hout : EntriesOut b c o) :
    ∀ cls w, ObjOut b c cls w o := by
  obtain ⟨hreq, hitems⟩ := checkObj_inv hck
  have hkeysub : ∀ k, k ∈ o.keys → k ∈ c.snames :=
    checkItems_keys_sub hitems
  obtain ⟨kw, hj, hkeys, hloop⟩ := hout
  intro cls w
  obtain ⟨slots1, hl, habs, hpres⟩ := hloop w .nil
  have hmn : missingNames c kw = [] := by
    apply missingNames_eq_nil
    intro r hr
    rw [hkeys]
    have hall := List.all_eq_true.mp
      (by rwa [checkRequired, requiredKeys_compile] at hreq) r hr
    exact (RawObj.lookup_isSome_iff o r).mp (by simpa using hall)
  have hcon : construct w cls c kw = .ok (.mk cls slots1) := by
    rw [construct, if_pos hmn, hl]
  have hasm : ∃ e, assembleObj c.snames (slotOutcomes b slots1) = .ok e ∧
      pyEqObjSub e o = true ∧
      e.size = (c.snames.filter (fun k => (o.lookup k).isSome)).length := by
    apply assembleObj_ok
    · intro k _ hnone
      rw [lookupIn_slotOutcomes, habs k hnone]
      rfl
    · intro k v _ hv
      obtain ⟨dv, hdv, rw2, hso, hpe⟩ := hpres k v hv
      rw [lookupIn_slotOutcomes, hdv]
      exact ⟨rw2, by simp [Option.map, hso], hpe⟩
  obtain ⟨e, he, hsub, hsz⟩ := hasm
  refine ⟨.mk cls slots1, e, ?_, rfl, ?_, ?_⟩
  · rw [hj]
    simpa [Except.bind] using hcon
  · exact he
  · have hcount : (c.snames.filter (fun k => (o.lookup k).isSome)).length = o.size := by
      rw [filter_isSome_eq]
      rw [← RawObj.keys_length]
      exact filter_mem_length (snames_nodup_of_levelsNodup c hln)
        (RawObj.keys_nodup o hwk) hkeysub
    simp only [pyEq, Bool.and_eq_true]
    refine ⟨hsub, ?_⟩
    rw [hsz, hcount]
    simp


mutual
theorem rt_entries (b : Base) : ∀ (o : RawObj) (c : Content),
    b.consistentC c → c.noNormC → c.levelsNodup = true → o.wfKeysO = true →
    ∀ o2, checkItems c.compile o = some o2 → EntriesOut b c o
  | .nil, c, _, _, _, _, _, _ => by
    refine ⟨[], rfl, rfl, fun w slots0 => ⟨slots0, rfl, fun key _ => rfl, fun key v hv => ?_⟩⟩
    simp [RawObj.lookup] at hv
  | .cons k v rest, c, hc, hn, hl, hw, o2, hck => by
    rw [RawObj.wfKeysO, Bool.and_eq_true, Bool.and_eq_true] at hw
    obtain ⟨⟨hw1, hw2⟩, hw3⟩ := hw
    rw [checkItems] at hck
    cases hf : c.compile.find? k with
    | none => rw [hf] at hck; simp at hck
    | some p =>
      rw [hf] at hck
      obtain ⟨r, sv⟩ := p
      try dsimp only at hck
      cases hcv : checkVal sv v with
      | none => rw [hcv] at hck; simp at hck
      | some v2 =>
        rw [hcv] at hck
        cases hre : checkItems c.compile rest with
        | none => rw [hre] at hck; simp at hck
        | some rest2 =>
          have hcf : ∃ s, c.find? k = some s ∧ sv = s.schemaOf := by
            rw [compile_find?] at hf
            cases hfc : c.find? k with
            | none => rw [hfc] at hf; simp at hf
            | some s =>
              rw [hfc] at hf
              simp only [Option.map, Option.some.injEq, Prod.mk.injEq] at hf
              exact ⟨s, rfl, hf.2.symm⟩
          obtain ⟨s, hfc, hsv⟩ := hcf
          have hmem := Content.find?_memTop hfc
          have hgs := consistentC_memTop hc hmem.1
          have hnn2 := noNormC_memTop hn hmem.1
          have hgsk : b.get_struct k = some s := hmem.2 ▸ hgs.1
          obtain ⟨kwR, hjR, hkR, hloopR⟩ :=
            rt_entries b rest c hc hn hl hw3 rest2 hre
          cases s with
          | fld f =>
            have hcv2 : checkVal (.fieldv f.datatype f.multivalued) v = some v2 := by
              rw [hsv] at hcv; exact hcv
            obtain ⟨hv2, hfs⟩ := fieldSetattr_ofRaw_noNorm hnn2 hcv2
            have hjK : j2dKwargs b (.cons k v rest) = .ok ((k, SetVal.ofRaw v) :: kwR) := by
              rw [j2dKwargs, hgsk]
              try dsimp only
              rw [hjR]
              rfl
            refine ⟨(k, SetVal.ofRaw v) :: kwR, hjK, ?_, ?_⟩
            · simp [hkR, RawObj.keys]
            · intro w slots0
              obtain ⟨slots1, hlR, habsR, hpresR⟩ := hloopR w (slots0.set k (.fieldv v))
              have hset : setterVal w (.fld f) (SetVal.ofRaw v) = .ok (.fieldv v) := by
                simp only [setterVal, fieldInit, hfs, Except.map]
              have hstep : constructLoop w c slots0 ((k, SetVal.ofRaw v) :: kwR) =
                  (slots1, none) := by
                simp only [constructLoop, hfc, hset]
                exact hlR
              refine ⟨slots1, hstep, ?_, ?_⟩
              · intro key hnone
                rw [RawObj.lookup] at hnone
                by_cases hkk : k = key
                · rw [if_pos hkk] at hnone; simp at hnone
                · rw [if_neg hkk] at hnone
                  rw [habsR key hnone]
                  exact Slots.lookup_set_ne slots0 k key _ hkk
              · intro key vv hv
                rw [RawObj.lookup] at hv
                by_cases hkk : k = key
                · rw [if_pos hkk] at hv
                  cases hv
                  subst hkk
                  have hrl : rest.lookup k = none := Option.isNone_iff_eq_none.mp hw1
                  refine ⟨.fieldv v, ?_, v, ?_, pyEq_refl v hw2⟩
                  · rw [habsR k hrl]
                    exact Slots.lookup_set_self slots0 k _
                  · rw [slotOutcome, hgsk]
                · rw [if_neg hkk] at hv
                  exact hpresR key vv hv
          | grp m cg =>
            have hccg : b.consistentC cg := hgs.2
            have hnncg : cg.noNormC := hnn2
            have hlcg : cg.levelsNodup = true := memTop_levelsNodupS hl hmem.1
            have hnamek : m.name = k := hmem.2
            have hgc : b.groupContent m.name = .ok cg := by
              rw [hnamek]
              simp [Base.groupContent, hgsk]
            have hcv2 : checkVal (.groupv m.multivalued cg.compile) v = some v2 := by
              rw [hsv] at hcv; exact hcv
            cases hmv : m.multivalued with
            | false =>
              rw [checkVal.eq_def] at hcv2
              rw [hmv] at hcv2
              simp only [if_false] at hcv2
              cases v with
              | obj ob =>
                try dsimp only at hcv2
                cases hreq : checkRequired cg.compile ob with
                | false => rw [hreq] at hcv2; simp at hcv2
                | true =>
                  rw [hreq] at hcv2
                  simp only [if_true] at hcv2
                  cases hits : checkItems cg.compile ob with
                  | none => rw [hits] at hcv2; simp at hcv2
                  | some ob2 =>
                    have hck2 : checkObj cg.compile ob = some ob2 := by
                      simp only [checkObj, hreq, if_true]
                      exact hits
                    have hEnt := rt_entries b ob cg hccg hnncg hlcg hw2 ob2 hits
                    obtain ⟨inst, e, hbind, hcls, hdd, hpe⟩ :=
                      objOut_of_entries hlcg hw2 hck2 hEnt m.name true
                    have hjK : j2dKwargs b (.cons k (.obj ob) rest) =
                        .ok ((k, .inst inst) :: kwR) := by
                      rw [j2dKwargs, hgsk]
                      try dsimp only
                      rw [hmv]
                      try dsimp only
                      rw [hgc]
                      try dsimp only
                      rw [hbind, hjR]
                      try rfl
                    refine ⟨(k, .inst inst) :: kwR, hjK, ?_, ?_⟩
                    · simp [hkR, RawObj.keys]
                    · intro w slots0
                      obtain ⟨slots1, hlR, habsR, hpresR⟩ :=
                        hloopR w (slots0.set k (.ginst inst))
                      have hset : setterVal w (.grp m cg) (.inst inst) =
                          .ok (.ginst inst) := by
                        simp [setterVal, hmv, hcls]
                      have hstep : constructLoop w c slots0
                          ((k, .inst inst) :: kwR) = (slots1, none) := by
                        simp only [constructLoop, hfc, hset]
                        exact hlR
                      refine ⟨slots1, hstep, ?_, ?_⟩
                      · intro key hnone
                        rw [RawObj.lookup] at hnone
                        by_cases hkk : k = key
                        · rw [if_pos hkk] at hnone; simp at hnone
                        · rw [if_neg hkk] at hnone
                          rw [habsR key hnone]
                          exact Slots.lookup_set_ne slots0 k key _ hkk
                      · intro key vv hv
                        rw [RawObj.lookup] at hv
                        by_cases hkk : k = key
                        · rw [if_pos hkk] at hv
                          cases hv
                          subst hkk
                          have hrl : rest.lookup k = none :=
                            Option.isNone_iff_eq_none.mp hw1
                          refine ⟨.ginst inst, ?_, .obj e, ?_, hpe⟩
                          · rw [habsR k hrl]
                            exact Slots.lookup_set_self slots0 k _
                          · rw [slotOutcome, hgsk]
                            try dsimp only
                            rw [hmv]
                            try dsimp only
                            rw [hdd]
                            try rfl
                        · rw [if_neg hkk] at hv
                          exact hpresR key vv hv
              | scalar a => simp at hcv2
              | arr l => simp at hcv2
            | true =>
              rw [checkVal.eq_def] at hcv2
              rw [hmv] at hcv2
              simp only [if_true] at hcv2
              cases v with
              | arr l =>
                try dsimp only at hcv2
                cases hcl : checkObjList cg.compile l with
                | none => rw [hcl] at hcv2; simp at hcv2
                | some l2 =>
                  obtain ⟨il, vs, hjl, hall, hdl, hpl⟩ :=
                    rt_list b l cg m.name hccg hnncg hlcg hw2 l2 hcl
                  have hjK : j2dKwargs b (.cons k (.arr l) rest) =
                      .ok ((k, .list (SetList.ofInsts il)) :: kwR) := by
                    rw [j2dKwargs, hgsk]
                    try dsimp only
                    rw [hmv]
                    try dsimp only
                    rw [hgc]
                    try dsimp only
                    rw [hjl, hjR]
                    try rfl
                  refine ⟨(k, .list (SetList.ofInsts il)) :: kwR, hjK, ?_, ?_⟩
                  · simp [hkR, RawObj.keys]
                  · intro w slots0
                    obtain ⟨slots1, hlR, habsR, hpresR⟩ :=
                      hloopR w (slots0.set k (.glist w il))
                    have hset : setterVal w (.grp m cg) (.list (SetList.ofInsts il)) =
                        .ok (.glist w il) := by
                      simp [setterVal, hmv, hall, instsOf_ofInsts]
                    have hstep : constructLoop w c slots0
                        ((k, .list (SetList.ofInsts il)) :: kwR) = (slots1, none) := by
                      simp only [constructLoop, hfc, hset]
                      exact hlR
                    refine ⟨slots1, hstep, ?_, ?_⟩
                    · intro key hnone
                      rw [RawObj.lookup] at hnone
                      by_cases hkk : k = key
                      · rw [if_pos hkk] at hnone; simp at hnone
                      · rw [if_neg hkk] at hnone
                        rw [habsR key hnone]
                        exact Slots.lookup_set_ne slots0 k key _ hkk
                    · intro key vv hv
                      rw [RawObj.lookup] at hv
                      by_cases hkk : k = key
                      · rw [if_pos hkk] at hv
                        cases hv
                        subst hkk
                        have hrl : rest.lookup k = none :=
                          Option.isNone_iff_eq_none.mp hw1
                        refine ⟨.glist w il, ?_, .arr vs, ?_, hpl⟩
                        · rw [habsR k hrl]
                          exact Slots.lookup_set_self slots0 k _
                        · rw [slotOutcome, hgsk]
                          try dsimp only
                          rw [hmv]
                          try dsimp only
                          rw [hdl]
                          try rfl
                      · rw [if_neg hkk] at hv
                        exact hpresR key vv hv
              | scalar a => simp at hcv2
              | obj ob => simp at hcv2

theorem rt_list (b : Base) : ∀ (l : RawList) (cg : Content) (gname : String),
    b.consistentC cg → cg.noNormC → cg.levelsNodup = true → l.wfKeysL = true →
    ∀ l2, checkObjList cg.compile l = some l2 → ListOut b cg gname l
  | .nil, cg, gname, _, _, _, _, _, _ => ⟨.nil, .nil, rfl, rfl, rfl, rfl⟩
  | .cons v rest, cg, gname, hc, hn, hl, hw, l2, hck => by
    rw [RawList.wfKeysL, Bool.and_eq_true] at hw
    rw [checkObjList.eq_def] at hck
    try dsimp only at hck
    cases v with
    | obj ob =>
      try dsimp only at hck
      cases hreq : checkRequired cg.compile ob with
      | false => rw [hreq] at hck; simp at hck
      | true =>
        rw [hreq] at hck
        simp only [if_true] at hck
        cases hits : checkItems cg.compile ob with
        | none => rw [hits] at hck; simp at hck
        | some ob2 =>
          rw [hits] at hck
          cases hrl : checkObjList cg.compile rest with
          | none => rw [hrl] at hck; simp at hck
          | some lrest2 =>
            have hck2 : checkObj cg.compile ob = some ob2 := by
              simp only [checkObj, hreq, if_true]
              exact hits
            have hEnt := rt_entries b ob cg hc hn hl hw.1 ob2 hits
            obtain ⟨inst, e, hbind, hcls, hdd, hpe⟩ :=
              objOut_of_entries hl hw.1 hck2 hEnt gname true
            obtain ⟨il, vs, hjl, hall, hdl, hpl⟩ :=
              rt_list b rest cg gname hc hn hl hw.2 lrest2 hrl
            refine ⟨.cons inst il, .cons (.obj e) vs, ?_, ?_, ?_, ?_⟩
            · rw [j2dList, hbind, hjl]
              rfl
            · show ((inst.cls == gname) && allInst gname (SetList.ofInsts il)) = true
              simp [hcls, hall]
            · rw [doc2dictList, hdd, hdl]
              try rfl
            · show (pyEq (.obj e) (.obj ob) && pyEqList vs rest) = true
              simp [hpe, hpl]
    | scalar a => simp at hck
    | arr l3 => simp at hck
end


/-- C2 amended: over a consistently named base (unique structure names per
level, the global name lookup resolving every structure to itself) whose
datatype validators return accepted values unchanged, every raw document
(unique keys, no embedded `'_metadata'` key) that validates against the
compiled schema converts to a typed document instance and back to a raw
dictionary Python-`==`-equal to the original, and `Base.validate` succeeds
on it.  Both restrictions are forced: a normalizing validator makes the
round trip return the normalized document instead, and a name repeated
across branches derails the converters' bare-name structure resolution —
see the two halves of the counterexample. -/
theorem json2document_document2dict_roundtrip (b : Base) (d : RawObj)
    (st : ScratchState) (meta : DocumentMetadata)
    (hco : b.consistentC b.content) (hnn : b.content.noNormC)
    (hln : b.content.levelsNodup = true) (hwk : d.wfKeysO = true)
    (hmeta : d.lookup "_metadata" = none)
    (d2 : RawObj) (hck : checkObj b.content.compile d = some d2) :
    (∃ inst e, b.json2document d = .ok inst ∧
      b.document2dict inst none = .ok e ∧ pyEq (.obj e) (.obj d) = true) ∧
    (∃ vdoc rl fl, (b.validate b.schemaFun st d meta).2.2 = .ok (vdoc, rl, fl, [])) := by
  constructor
  · have hEnt := rt_entries b d b.content hco hnn hln hwk d2 (checkObj_inv hck).2
    obtain ⟨inst, e, hbind, hcls, hdd, hpe⟩ :=
      objOut_of_entries hln hwk hck hEnt b.metadata.name false
    exact ⟨inst, e, hbind, hdd, hpe⟩
  · have her : d.eraseKey "_metadata" = d := RawObj.eraseKey_of_lookup_none hmeta
    have hsf : b.schemaFun (d.eraseKey "_metadata") [] [] = .ok (d2, [], []) := by
      rw [her]
      simp [Base.schemaFun, hck]
    rw [validate_eq_of_ok b b.schemaFun st d meta d2 [] [] hsf]
    exact ⟨d2.setKey "_metadata" meta.mdict, [], [], rfl⟩

/-- Witness for the amended C2: the spec §8 scenario
`{"title": "X", "author": {"name": "Y"}}` against the sample base
round-trips to a Python-equal document and validates. -/
theorem json2document_document2dict_roundtrip_witness :
    (∃ inst e, sampleBase.json2document
        (RawObj.cons "title" (RawVal.scalar "X")
          (RawObj.cons "author"
            (RawVal.obj (RawObj.cons "name" (RawVal.scalar "Y") .nil)) .nil)) =
          .ok inst ∧
      sampleBase.document2dict inst none = .ok e ∧
      pyEq (.obj e)
        (.obj (RawObj.cons "title" (RawVal.scalar "X")
          (RawObj.cons "author"
            (RawVal.obj (RawObj.cons "name" (RawVal.scalar "Y") .nil)) .nil))) = true) ∧
    (∃ vdoc rl fl, (sampleBase.validate sampleBase.schemaFun ⟨[], []⟩
        (RawObj.cons "title" (RawVal.scalar "X")
          (RawObj.cons "author"
            (RawVal.obj (RawObj.cons "name" (RawVal.scalar "Y") .nil)) .nil))
        ⟨5, RawVal.obj .nil⟩).2.2 = .ok (vdoc, rl, fl, [])) :=
  json2document_document2dict_roundtrip sampleBase _ ⟨[], []⟩ ⟨5, RawVal.obj .nil⟩
    ⟨rfl, trivial, ⟨rfl, ⟨rfl, trivial, trivial⟩, trivial⟩⟩
    ⟨fun a b2 h => (Option.some.inj h).symm,
      ⟨⟨fun a b2 h => (Option.some.inj h).symm, trivial⟩, trivial⟩⟩
    rfl rfl rfl _ rfl

/-- C2 as stated fails in two independent ways, each refuting the original
claim at a concrete valid document.  First, once a datatype validator
normalizes (the spec's datatype capability is "validate value, raise or
return normalized value"): with a field `f` whose validator normalizes every
scalar to `"A"`, the raw document `{"f": "a"}` is valid — schema validation
succeeds — yet converting it to a typed document and back yields the
normalized `{"f": "A"}`, which is not Python-equal to the original.
Second, once a structure name repeats across nesting branches (which the
spec's Content invariant allows): against `shadowBase`, whose name `x` is a
Field inside Group `a` but a Group inside Group `b`, the document
`{"a": {"x": "v"}}` is valid — the schema compiles branch-locally — yet
`json2document` resolves the nested member `x` through the bare-name global
`get_struct` to the wrong branch's Group (struct.py 348) and fails instead
of producing a document instance, so the round trip never returns `d`. -/
theorem json2document_roundtrip_counterexample :
    (checkObj normBase.content.compile (RawObj.cons "f" (RawVal.scalar "a") .nil) =
      some (RawObj.cons "f" (RawVal.scalar "A") .nil) ∧
    normBase.json2document (RawObj.cons "f" (RawVal.scalar "a") .nil) =
      .ok (.mk "norm" (.cons "f" (.fieldv (.scalar "A")) .nil)) ∧
    normBase.document2dict (.mk "norm" (.cons "f" (.fieldv (.scalar "A")) .nil)) none =
      .ok (RawObj.cons "f" (RawVal.scalar "A") .nil) ∧
    pyEq (.obj (RawObj.cons "f" (RawVal.scalar "A") .nil))
      (.obj (RawObj.cons "f" (RawVal.scalar "a") .nil)) = false) ∧
    (shadowBase.get_struct "x" =
      some (.grp ⟨"x", false, false⟩
        (.cons (.fld ⟨"y", fun s => some s, false, false, false⟩) .nil)) ∧
    checkObj shadowBase.content.compile
      (RawObj.cons "a" (RawVal.obj (RawObj.cons "x" (RawVal.scalar "v") .nil)) .nil) =
        some (RawObj.cons "a"
          (RawVal.obj (RawObj.cons "x" (RawVal.scalar "v") .nil)) .nil) ∧
    shadowBase.json2document
      (RawObj.cons "a" (RawVal.obj (RawObj.cons "x" (RawVal.scalar "v") .nil)) .nil) =
        .error (.typeMismatch "x")) :=
  ⟨⟨rfl, rfl, rfl, rfl⟩, ⟨rfl, rfl, rfl⟩⟩

end LB
